import Mathlib

/-!
Shallow embedding of the krusty chess engine core (Rust sources under `src/`):
board representation (`board.rs`), Zobrist hashing (`zobrist_hash.rs`,
`prng.rs`), make/unmake (`make_move.rs`), move generation
(`move_generator.rs`), move ordering (`search.rs`), FEN parsing (`board.rs`)
and search-timer setup (`time_management.rs`).

Conventions of the embedding:
* Rust `u64` / `u32` / `u128` values are `Nat`s kept below `2^64` / `2^32` /
  `2^128`; wrap-around is written explicitly with `% 2^w` where the Rust
  operation wraps.
* A `Square` is its index `0..63` (the Rust `Square` enum discriminant);
  the sentinel `Square::None` has discriminant `64`, embedded as the
  constant `noneSquare = 64`.
* The 64-entry mailbox `Board::pieces` is a `List Piece` of length 64.
* Rust `anyhow::Result` is `Except String`; `&mut self` methods become
  functions returning the updated `Board`.
* Rust panics (out-of-range `Square` conversions, `unwrap` on an empty
  history) are modelled by `Option` or by total junk values that are
  unreachable under the stated hypotheses; each such spot is documented.
-/

namespace Krusty

/-- `board.rs`: `enum Side { White, Black }`. -/
inductive Side where
  | white
  | black
deriving DecidableEq, Repr

/-- `board.rs`: `impl Not for Side`. -/
def Side.flip : Side → Side
  | .white => .black
  | .black => .white

/-- `square.rs`: `enum PieceColor { White, Black, None }`. -/
inductive PieceColor where
  | white
  | black
  | none
deriving DecidableEq, Repr

/-- `square.rs`: `enum PieceKind { Pawn, Knight, Bishop, Rook, Queen, King, NoPiece }`. -/
inductive PieceKind where
  | pawn
  | knight
  | bishop
  | rook
  | queen
  | king
  | noPiece
deriving DecidableEq, Repr

/-- `square.rs`: `struct Piece { color, kind }`. -/
structure Piece where
  color : PieceColor
  kind : PieceKind
deriving DecidableEq, Repr

/-- `square.rs`: `Piece::default()` = `(PieceColor::None, PieceKind::NoPiece)`. -/
def Piece.empty : Piece := ⟨.none, .noPiece⟩

/-- `square.rs`: `impl From<Side> for PieceColor`. -/
def Side.toColor : Side → PieceColor
  | .white => .white
  | .black => .black

/-- `board.rs`: `impl TryFrom<PieceColor> for Side` (fails on `PieceColor::None`). -/
def sideOfColor : PieceColor → Except String Side
  | .white => .ok .white
  | .black => .ok .black
  | .none => .error "piece has no color"

/-- Rust discriminant of `PieceColor` (`piece.color as usize`). -/
def PieceColor.asNat : PieceColor → Nat
  | .white => 0
  | .black => 1
  | .none => 2

/-- Rust discriminant of `PieceKind` (`piece.kind as usize`). -/
def PieceKind.asNat : PieceKind → Nat
  | .pawn => 0
  | .knight => 1
  | .bishop => 2
  | .rook => 3
  | .queen => 4
  | .king => 5
  | .noPiece => 6

/-- A square is its Rust enum discriminant `0..63`. -/
abbrev Square := Nat

/-- `Square::None` has discriminant 64 (`Square::None as usize`). -/
def noneSquare : Square := 64

/-- A bitboard is a `u64` value (`bitboard.rs`: `struct Bitboard(u64)`). -/
abbrev Bitboard := Nat

/-- Two to the 64, the `u64` modulus. -/
def U64 : Nat := 2 ^ 64

/-- Rust `!x` on `u64`: complement inside 64 bits. -/
def not64 (x : Nat) : Nat := x ^^^ (2 ^ 64 - 1)

/-- `square.rs`: `Square::bitboard` = `1u64 << square` (valid for squares `0..63`). -/
def squareBB (s : Square) : Bitboard := 1 <<< s

/-- `bitboard.rs`: `set_bit` — `*self |= square.bitboard()`. -/
def setBit (bb : Bitboard) (s : Square) : Bitboard := bb ||| squareBB s

/-- `bitboard.rs`: `clear_bit` — `*self &= !square.bitboard()`. -/
def clearBit (bb : Bitboard) (s : Square) : Bitboard := bb &&& not64 (squareBB s)

/-- `bitboard.rs`: `is_occupied` — `self & square.bitboard() != EMPTY_BB`. -/
def isOccupied (bb : Bitboard) (s : Square) : Bool := bb &&& squareBB s != 0

/-- `move_generator.rs`: `enum MoveKind` with discriminants 0..3. -/
inductive MoveKind where
  | quiet
  | capture
  | castle
  | promotion
deriving DecidableEq, Repr

/-- Discriminant of `MoveKind`. -/
def MoveKind.code : MoveKind → Nat
  | .quiet => 0
  | .capture => 1
  | .castle => 2
  | .promotion => 3

/-- `move_generator.rs`: `impl From<u32> for MoveKind`. Total on `0..3`,
which is all that `kind()` can produce (the extracted bits are masked by
`0b11`); other inputs panic in Rust and are given the junk value `quiet`. -/
def MoveKind.ofCode : Nat → MoveKind
  | 1 => .capture
  | 2 => .castle
  | 3 => .promotion
  | _ => .quiet

/-- `move_generator.rs`: `enum MoveFlag` with discriminants 0..5. -/
inductive MoveFlag where
  | noFlag
  | enPassant
  | knightPromotion
  | bishopPromotion
  | rookPromotion
  | queenPromotion
deriving DecidableEq, Repr

/-- Discriminant of `MoveFlag`. -/
def MoveFlag.code : MoveFlag → Nat
  | .noFlag => 0
  | .enPassant => 1
  | .knightPromotion => 2
  | .bishopPromotion => 3
  | .rookPromotion => 4
  | .queenPromotion => 5

/-- `move_generator.rs`: `impl From<u32> for MoveFlag`. Total on `0..5`;
the masked 3-bit field can also hold 6 or 7, which panic in Rust and are
given the junk value `noFlag` (no move built by the engine carries them). -/
def MoveFlag.ofCode : Nat → MoveFlag
  | 1 => .enPassant
  | 2 => .knightPromotion
  | 3 => .bishopPromotion
  | 4 => .rookPromotion
  | 5 => .queenPromotion
  | _ => .noFlag

/-- `move_generator.rs`: `struct Move(u32)` — packed
from(6) | to(6) | kind(2) | flag(3) | score(15). -/
structure Move where
  val : Nat
deriving DecidableEq, Repr

/-- `Move::new(from, to, kind, flag)`. -/
def Move.make (fromSq toSq : Square) (kind : MoveKind) (flag : MoveFlag) : Move :=
  ⟨fromSq ||| (toSq <<< 6) ||| (kind.code <<< 12) ||| (flag.code <<< 14)⟩

/-- `Move::NULL_MOVE` = `Move(0)`. -/
def Move.nullMove : Move := ⟨0⟩

/-- `Move::from_square`: bits 0-5. -/
def Move.fromSq (m : Move) : Square := m.val &&& 63

/-- `Move::to_square`: bits 6-11. -/
def Move.toSq (m : Move) : Square := (m.val >>> 6) &&& 63

/-- `Move::kind`: bits 12-13. -/
def Move.kind (m : Move) : MoveKind := MoveKind.ofCode ((m.val >>> 12) &&& 3)

/-- `Move::flag`: bits 14-16. -/
def Move.flag (m : Move) : MoveFlag := MoveFlag.ofCode ((m.val >>> 14) &&& 7)

/-- `Move::score`: bits 17-31. -/
def Move.score (m : Move) : Nat := (m.val &&& 0xfffe0000) >>> 17

/-- `Move::set_score`: `self.0 |= score << 17 & MOVE_SCORE_MASK`
(`u32` shift, truncating). -/
def Move.setScore (m : Move) (score : Nat) : Move :=
  ⟨m.val ||| (((score <<< 17) % 2 ^ 32) &&& 0xfffe0000)⟩

/-- `move_generator.rs`: `impl PartialEq for Move` — equality ignoring the
15-bit score field (`!MOVE_SCORE_MASK` = `0x0001ffff`). -/
def Move.eqMasked (a b : Move) : Bool :=
  (a.val &&& 0x1ffff) == (b.val &&& 0x1ffff)

/-- `board.rs`: `CastlingKind::WhiteKing as u8` etc. -/
def whiteKingCastle : Nat := 1
def whiteQueenCastle : Nat := 2
def blackKingCastle : Nat := 4
def blackQueenCastle : Nat := 8

/-- `board.rs`: `struct HistoryItem`. -/
structure HistoryItem where
  castlingRights : Nat
  enPassantSquare : Square
  halfmoveClock : Nat
  movedPiece : Piece
  capturedPiece : Piece
  hash : Nat
deriving DecidableEq, Repr

/-- `board.rs`: `struct Board`. The `move_generator` and `hasher` fields of
the Rust struct are immutable global tables and are embedded as top-level
definitions (`zobristNumbers`, the attack-table functions) instead of
struct fields. -/
structure Board where
  whitePawns : Bitboard
  whiteKnights : Bitboard
  whiteBishops : Bitboard
  whiteRooks : Bitboard
  whiteQueens : Bitboard
  whiteKing : Bitboard
  blackPawns : Bitboard
  blackKnights : Bitboard
  blackBishops : Bitboard
  blackRooks : Bitboard
  blackQueens : Bitboard
  blackKing : Bitboard
  pieces : List Piece
  whiteOccupancies : Bitboard
  blackOccupancies : Bitboard
  side : Side
  halfmoveClock : Nat
  castlingRights : Nat
  enPassantSquare : Square
  history : List HistoryItem
  hash : Nat
deriving DecidableEq, Repr

/-- `Board::default()` (empty board). -/
def Board.default : Board where
  whitePawns := 0
  whiteKnights := 0
  whiteBishops := 0
  whiteRooks := 0
  whiteQueens := 0
  whiteKing := 0
  blackPawns := 0
  blackKnights := 0
  blackBishops := 0
  blackRooks := 0
  blackQueens := 0
  blackKing := 0
  pieces := List.replicate 64 Piece.empty
  whiteOccupancies := 0
  blackOccupancies := 0
  side := .white
  halfmoveClock := 0
  castlingRights := 0
  enPassantSquare := noneSquare
  history := []
  hash := 0

/-- `Board::reset` (zeroes everything except the hasher; note it does not
reset `hash`, which `parse_fen` recomputes afterwards). -/
def Board.reset (b : Board) : Board :=
  { b with
    whitePawns := 0, whiteKnights := 0, whiteBishops := 0, whiteRooks := 0
    whiteQueens := 0, whiteKing := 0
    blackPawns := 0, blackKnights := 0, blackBishops := 0, blackRooks := 0
    blackQueens := 0, blackKing := 0
    pieces := List.replicate 64 Piece.empty
    whiteOccupancies := 0, blackOccupancies := 0
    side := .white, castlingRights := 0, halfmoveClock := 0
    enPassantSquare := noneSquare, history := [] }

/-- `Board::get_piece_bb` — errors unless the piece is one of the 12
(color, kind) combinations with a bitboard. -/
def Board.getPieceBb (b : Board) (p : Piece) : Except String Bitboard :=
  match p.color, p.kind with
  | .white, .pawn => .ok b.whitePawns
  | .white, .knight => .ok b.whiteKnights
  | .white, .bishop => .ok b.whiteBishops
  | .white, .rook => .ok b.whiteRooks
  | .white, .queen => .ok b.whiteQueens
  | .white, .king => .ok b.whiteKing
  | .black, .pawn => .ok b.blackPawns
  | .black, .knight => .ok b.blackKnights
  | .black, .bishop => .ok b.blackBishops
  | .black, .rook => .ok b.blackRooks
  | .black, .queen => .ok b.blackQueens
  | .black, .king => .ok b.blackKing
  | _, _ => .error "cannot get bitboard for invalid piece"

/-- Writing through `Board::get_piece_bb_mut`: replace the addressed
bitboard field. -/
def Board.setPieceBb (b : Board) (p : Piece) (bb : Bitboard) : Except String Board :=
  match p.color, p.kind with
  | .white, .pawn => .ok { b with whitePawns := bb }
  | .white, .knight => .ok { b with whiteKnights := bb }
  | .white, .bishop => .ok { b with whiteBishops := bb }
  | .white, .rook => .ok { b with whiteRooks := bb }
  | .white, .queen => .ok { b with whiteQueens := bb }
  | .white, .king => .ok { b with whiteKing := bb }
  | .black, .pawn => .ok { b with blackPawns := bb }
  | .black, .knight => .ok { b with blackKnights := bb }
  | .black, .bishop => .ok { b with blackBishops := bb }
  | .black, .rook => .ok { b with blackRooks := bb }
  | .black, .queen => .ok { b with blackQueens := bb }
  | .black, .king => .ok { b with blackKing := bb }
  | _, _ => .error "cannot get bitboard for invalid piece"

/-- `Board::occupancy`. -/
def Board.occupancy (b : Board) : Side → Bitboard
  | .white => b.whiteOccupancies
  | .black => b.blackOccupancies

/-- Writing through `Board::occupancy_mut`. -/
def Board.setOccupancy (b : Board) (s : Side) (bb : Bitboard) : Board :=
  match s with
  | .white => { b with whiteOccupancies := bb }
  | .black => { b with blackOccupancies := bb }

/-- `Board::get_piece` — mailbox lookup (`self.pieces[square]`). -/
def Board.getPiece (b : Board) (s : Square) : Piece :=
  b.pieces.getD s Piece.empty

/-- `Board::empty_squares` = `!(occ White | occ Black)` (u64 complement). -/
def Board.emptySquares (b : Board) : Bitboard :=
  not64 (b.occupancy .white ||| b.occupancy .black)

/-- `Board::can_castle` — `castling_rights & kind != 0`. -/
def Board.canCastle (b : Board) (kind : Nat) : Bool :=
  b.castlingRights &&& kind != 0

/-- `Board::add_piece`: set the piece bitboard bit, the occupancy bit and
the mailbox entry. -/
def Board.addPiece (b : Board) (p : Piece) (s : Square) : Except String Board := do
  let bb ← b.getPieceBb p
  let b ← b.setPieceBb p (setBit bb s)
  let sd ← sideOfColor p.color
  let b := b.setOccupancy sd (setBit (b.occupancy sd) s)
  pure { b with pieces := b.pieces.set s p }

/-- `Board::remove_piece`: read the mailbox, clear the bitboard and
occupancy bits, empty the mailbox entry. Fails on an empty square. -/
def Board.removePiece (b : Board) (s : Square) : Except String (Piece × Board) :=
  let p := b.getPiece s
  if p.kind = .noPiece then .error "cannot remove empty piece"
  else do
    let bb ← b.getPieceBb p
    let b ← b.setPieceBb p (clearBit bb s)
    let sd ← sideOfColor p.color
    let b := b.setOccupancy sd (clearBit (b.occupancy sd) s)
    pure (p, { b with pieces := b.pieces.set s Piece.empty })

/-- `prng.rs`: the xorshift body of `Prng::random_u64` (state update). -/
def prngStep (state : Nat) : Nat :=
  let r := state
  let r := r ^^^ (r >>> 12)
  let r := r ^^^ ((r <<< 25) % 2 ^ 64)
  let r := r ^^^ (r >>> 27)
  r

/-- `prng.rs`: the value returned by `Prng::random_u64` (wrapping `u64`
multiply of the new state by the xorshift constant). -/
def prngOut (newState : Nat) : Nat := (newState * 2685821657736338717) % 2 ^ 64

/-- Successive outputs of a `Prng`: `n` calls to `random_u64`. The
`cond (state' == state')` guard always takes the first branch, so the
computed list is unchanged; it makes kernel reduction normalise each
PRNG state to a literal before the next list cell is produced, so that
deep lookups into the table evaluate in constant stack depth instead of
building a 794-deep thunk chain. -/
def prngList : Nat → Nat → List Nat
  | 0, _ => []
  | n + 1, state =>
    let state' := prngStep state
    cond (state' == state') (prngOut state' :: prngList n state') []

/-- `zobrist_hash.rs`: the 794 pseudorandom numbers, generated by a
`Prng::new(123)` (`ZobristHasher::default`). -/
def zobristNumbers : List Nat := prngList 794 123

/-- `zobrist_hash.rs`: `ZOBRIST_EN_PASSANT_FILES` — maps a square
discriminant (0..64, where 64 is `Square::None`) to its en-passant file
slot: the file for ranks 3 and 6 (indices 2 and 5), else the no-EP slot 8. -/
def epFileSlot (s : Nat) : Nat :=
  if s / 8 = 2 ∨ s / 8 = 5 then s % 8 else 8

/-- `zobrist_hash.rs`: `enum ZobristKey`. -/
inductive ZobristKey where
  | piece (p : Piece) (s : Square)
  | sideKey
  | castling (rights : Nat)
  | epFile (s : Square)

/-- `ZobristHasher::index_piece`: `numbers[6*color + kind + square]`.
NOTE: this is the source formula verbatim — the piece offset is **not**
multiplied by 64. -/
def indexPieceIdx (p : Piece) (s : Square) : Nat :=
  6 * p.color.asNat + p.kind.asNat + s

/-- `ZobristHasher::get_key_part`. List indexing out of range would panic
in Rust; `getD _ 0` is used (all reachable indices are in range). -/
def getKeyPart : ZobristKey → Nat
  | .piece p s => zobristNumbers.getD (indexPieceIdx p s) 0
  | .sideKey => zobristNumbers.getD 768 0
  | .castling rights => zobristNumbers.getD (769 + rights) 0
  | .epFile s => zobristNumbers.getD (785 + epFileSlot s) 0

/-- `Board::update_hash`: `hash ^= hasher.get_key_part(cause)`. -/
def Board.updateHash (b : Board) (key : ZobristKey) : Board :=
  { b with hash := b.hash ^^^ getKeyPart key }

/-- `Board::hash_en_passant_square`. -/
def Board.hashEnPassant (b : Board) : Board :=
  b.updateHash (.epFile b.enPassantSquare)

/-- `Board::hash_castling_rights`. -/
def Board.hashCastling (b : Board) : Board :=
  b.updateHash (.castling b.castlingRights)

/-- `Board::switch_side`. -/
def Board.switchSide (b : Board) : Board :=
  { b with side := b.side.flip }

/-- `Board::switch_side_and_hash`. -/
def Board.switchSideAndHash (b : Board) : Board :=
  b.switchSide.updateHash .sideKey

/-- `ZobristHasher::hash_position`: full recomputation — XOR of the
piece-square keys of all occupied mailbox entries, the side key when Black
is to move, the castling key and the en-passant file key. -/
def hashPosition (b : Board) : Nat :=
  let pieceHash := (List.range 64).foldl
    (fun h s =>
      let p := b.getPiece s
      if p.kind ≠ .noPiece then h ^^^ getKeyPart (.piece p s) else h) 0
  let h := if b.side = .black then pieceHash ^^^ getKeyPart .sideKey else pieceHash
  let h := h ^^^ getKeyPart (.castling b.castlingRights)
  h ^^^ getKeyPart (.epFile b.enPassantSquare)

/-- `Board::add_piece_and_hash`. -/
def Board.addPieceAndHash (b : Board) (p : Piece) (s : Square) : Except String Board := do
  let b ← b.addPiece p s
  pure (b.updateHash (.piece p s))

/-- `Board::remove_piece_and_hash`. -/
def Board.removePieceAndHash (b : Board) (s : Square) : Except String (Piece × Board) := do
  let (p, b) ← b.removePiece s
  pure (p, b.updateHash (.piece p s))

/-- `make_move.rs`: `Board::make_null_move`. -/
def Board.makeNullMove (b : Board) : Board :=
  let hist : HistoryItem :=
    { castlingRights := b.castlingRights
      enPassantSquare := b.enPassantSquare
      halfmoveClock := b.halfmoveClock
      movedPiece := Piece.empty
      capturedPiece := Piece.empty
      hash := b.hash }
  let b := { b with halfmoveClock := 0 }
  let b := b.hashEnPassant
  let b := { b with enPassantSquare := noneSquare }
  let b := b.switchSideAndHash
  { b with history := hist :: b.history }

/-- `make_move.rs`: `Board::unmake_null_move`. `pop_history` unwraps in
Rust (panics on an empty history); that case is `Option.none` here. -/
def Board.unmakeNullMove (b : Board) : Option Board :=
  match b.history with
  | [] => Option.none
  | hist :: rest =>
    some { b with
      history := rest
      castlingRights := hist.castlingRights
      enPassantSquare := hist.enPassantSquare
      halfmoveClock := hist.halfmoveClock
      hash := hist.hash
      side := b.side.flip }

/-- Rust `u64` left shift (bits shifted out of the top are discarded). -/
def shl64 (x n : Nat) : Nat := (x <<< n) % 2 ^ 64

/-- `move_generator.rs`: `NOT_A_FILE`. -/
def NOT_A_FILE : Nat := 18374403900871474942
/-- `move_generator.rs`: `NOT_H_FILE`. -/
def NOT_H_FILE : Nat := 9187201950435737471
/-- `move_generator.rs`: `NOT_AB_FILE`. -/
def NOT_AB_FILE : Nat := 18229723555195321596
/-- `move_generator.rs`: `NOT_GH_FILE`. -/
def NOT_GH_FILE : Nat := 4557430888798830399

/-- `move_generator.rs`: entry `s` of `WHITE_PAWN_ATTACKS`
(`init_white_pawn_attacks`): north-west | north-east with wrap masks. -/
def whitePawnAttacks (s : Square) : Bitboard :=
  (shl64 (squareBB s) 7 &&& NOT_H_FILE) ||| (shl64 (squareBB s) 9 &&& NOT_A_FILE)

/-- `move_generator.rs`: entry `s` of `BLACK_PAWN_ATTACKS`
(`init_black_pawn_attacks`): south-west | south-east with wrap masks. -/
def blackPawnAttacks (s : Square) : Bitboard :=
  ((squareBB s >>> 9) &&& NOT_H_FILE) ||| ((squareBB s >>> 7) &&& NOT_A_FILE)

/-- `move_generator.rs`: `pawn_attacks(side)` table, as a function of the
square. -/
def pawnAttacks : Side → Square → Bitboard
  | .white => whitePawnAttacks
  | .black => blackPawnAttacks

/-- `move_generator.rs`: entry `s` of `WHITE_PAWN_PUSHES` (`square_bb << 8`). -/
def whitePawnPushes (s : Square) : Bitboard := shl64 (squareBB s) 8

/-- `move_generator.rs`: entry `s` of `BLACK_PAWN_PUSHES` (`square_bb >> 8`). -/
def blackPawnPushes (s : Square) : Bitboard := squareBB s >>> 8

/-- `move_generator.rs`: `MoveGenerator::pawn_pushes(side)`. -/
def pawnPushes : Side → Square → Bitboard
  | .white => whitePawnPushes
  | .black => blackPawnPushes

/-- `square.rs`: `Square::north` = index + 8 (an out-of-range result
panics in Rust when converted back to a `Square`; total here). -/
def Square.north (s : Square) : Square := s + 8

/-- `square.rs`: `Square::south` = index − 8 (underflow panics in Rust;
`Nat` subtraction truncates at 0, unreachable under the usage hypotheses). -/
def Square.south (s : Square) : Square := s - 8

/-- Modelled from the spec: `Square::distance_between` is called by
`Board::make_move` to detect a pawn double push
(`from.distance_between(to) == 16`) but its definition is not among the
sources; the spec describes the test as recognising a two-rank pawn
advance, so it is modelled as the absolute difference of the square
indices. -/
def distanceBetween (a b : Square) : Nat := max a b - min a b

/-- `make_move.rs`: `CASTLING_PERMISSIONS_TABLE`
(`init_castling_permissions_table`): 15 everywhere except
A1 ↦ 13, E1 ↦ 12, H1 ↦ 14, A8 ↦ 7, E8 ↦ 3, H8 ↦ 11. -/
def castlingPermissions (s : Square) : Nat :=
  if s = 0 then 13
  else if s = 4 then 12
  else if s = 7 then 14
  else if s = 56 then 7
  else if s = 60 then 3
  else if s = 63 then 11
  else 15

/-- `make_move.rs`: `Board::make_move`, state changes only. The Rust
function finally returns the legality flag
`!self.is_in_check(!self.side_to_move())`, computed on the final state
without further mutation; it is embedded separately so that the state
transformation can be reasoned about on its own. -/
def Board.makeMove (b : Board) (mv : Move) : Except String Board := do
  let oldHash := b.hash
  let fromSq := mv.fromSq
  let toSq := mv.toSq
  let (movedPiece, b) ← b.removePieceAndHash fromSq
  let hist : HistoryItem :=
    { castlingRights := b.castlingRights
      enPassantSquare := b.enPassantSquare
      halfmoveClock := b.halfmoveClock
      movedPiece := movedPiece
      capturedPiece := b.getPiece toSq
      hash := oldHash }
  let b := { b with halfmoveClock := b.halfmoveClock + 1 }
  let b := b.hashEnPassant
  let b := { b with enPassantSquare := noneSquare }
  let (hist, b) ← (match mv.kind with
    | .quiet => do
        let b ← b.addPieceAndHash movedPiece toSq
        pure (hist, b)
    | .capture => do
        let b := { b with halfmoveClock := 0 }
        if mv.flag = .enPassant then do
          let capturedSquare : Square := match b.side with
            | .white => toSq.south
            | .black => toSq.north
          let (captured, b) ← b.removePieceAndHash capturedSquare
          let b ← b.addPieceAndHash movedPiece toSq
          pure ({ hist with capturedPiece := captured }, b)
        else do
          let (_, b) ← b.removePieceAndHash toSq
          let b ← b.addPieceAndHash movedPiece toSq
          pure (hist, b)
    | .castle => do
        let b ← b.addPieceAndHash movedPiece toSq
        let (rookFrom, rookTo) ← (match toSq with
          | 6 => Except.ok ((7 : Square), (5 : Square))
          | 2 => Except.ok (0, 3)
          | 62 => Except.ok (63, 61)
          | 58 => Except.ok (56, 59)
          | _ => Except.error "tried to castle to illegal square")
        let (rook, b) ← b.removePieceAndHash rookFrom
        let b ← b.addPieceAndHash rook rookTo
        pure (hist, b)
    | .promotion => do
        let b ← (if (b.getPiece toSq).kind ≠ .noPiece then do
            let (_, b) ← b.removePieceAndHash toSq
            pure b
          else pure b)
        let promotionPiece ← (match mv.flag with
          | .knightPromotion => Except.ok (Piece.mk b.side.toColor .knight)
          | .bishopPromotion => Except.ok (Piece.mk b.side.toColor .bishop)
          | .rookPromotion => Except.ok (Piece.mk b.side.toColor .rook)
          | .queenPromotion => Except.ok (Piece.mk b.side.toColor .queen)
          | _ => Except.error "tried to make promotion move without providing a promotion flag")
        let b ← b.addPieceAndHash promotionPiece toSq
        pure (hist, b))
  let b ← (if movedPiece.kind = .pawn then do
      let b := { b with halfmoveClock := 0 }
      if distanceBetween fromSq toSq = 16 then do
        let epSquare : Square := match b.side with
          | .white => fromSq.north
          | .black => fromSq.south
        let enemyPawns ← b.getPieceBb (Piece.mk b.side.flip.toColor .pawn)
        let attacks := pawnAttacks b.side epSquare
        if attacks &&& enemyPawns ≠ 0 then
          let b := { b with enPassantSquare := epSquare }
          pure b.hashEnPassant
        else pure b
      else pure b
    else pure b)
  let b := b.hashCastling
  let b := { b with
    castlingRights :=
      b.castlingRights &&& castlingPermissions fromSq &&& castlingPermissions toSq }
  let b := b.hashCastling
  let b := b.switchSideAndHash
  pure { b with history := hist :: b.history }

/-- `make_move.rs`: `Board::unmake_move`. `pop_history` unwraps in Rust
(panics on an empty history); that case is an error here. -/
def Board.unmakeMove (b : Board) (mv : Move) : Except String Board := do
  match b.history with
  | [] => Except.error "history is empty"
  | hist :: rest =>
    let b := { b with
      history := rest
      castlingRights := hist.castlingRights
      enPassantSquare := hist.enPassantSquare
      halfmoveClock := hist.halfmoveClock
      hash := hist.hash }
    let b := b.switchSide
    let fromSq := mv.fromSq
    let toSq := mv.toSq
    let b ← b.addPiece hist.movedPiece fromSq
    match mv.kind with
    | .quiet => do
        let (_, b) ← b.removePiece toSq
        pure b
    | .capture =>
        if mv.flag = .enPassant then do
          let capturedSquare : Square := match b.side with
            | .white => toSq.south
            | .black => toSq.north
          let (_, b) ← b.removePiece toSq
          let b ← b.addPiece hist.capturedPiece capturedSquare
          pure b
        else do
          let (_, b) ← b.removePiece toSq
          let b ← b.addPiece hist.capturedPiece toSq
          pure b
    | .castle => do
        let (_, b) ← b.removePiece toSq
        let (rookFrom, rookTo) ← (match toSq with
          | 6 => Except.ok ((7 : Square), (5 : Square))
          | 2 => Except.ok (0, 3)
          | 62 => Except.ok (63, 61)
          | 58 => Except.ok (56, 59)
          | _ => Except.error "tried to unmake illegal castling move")
        let (rook, b) ← b.removePiece rookTo
        let b ← b.addPiece rook rookFrom
        pure b
    | .promotion => do
        let (_, b) ← b.removePiece toSq
        if hist.capturedPiece.kind ≠ .noPiece then
          b.addPiece hist.capturedPiece toSq
        else
          pure b

/-- The squares visited by a `while bb != EMPTY_BB { bb.pop_bit() }` loop:
`pop_bit` removes the least significant set bit each iteration, so a `u64`
bitboard's loop visits its set bits among `0..63` in ascending order. -/
def bits64 (bb : Bitboard) : List Square :=
  (List.range 64).filter (fun s => bb.testBit s)

/-- `move_generator.rs`: entry `s` of `KNIGHT_ATTACKS` (`init_knight_attacks`). -/
def knightAttacks (s : Square) : Bitboard :=
  let bb := squareBB s
  (shl64 bb 17 &&& NOT_A_FILE) ||| (shl64 bb 15 &&& NOT_H_FILE) |||
  (shl64 bb 10 &&& NOT_AB_FILE) ||| (shl64 bb 6 &&& NOT_GH_FILE) |||
  ((bb >>> 15) &&& NOT_A_FILE) ||| ((bb >>> 17) &&& NOT_H_FILE) |||
  ((bb >>> 6) &&& NOT_AB_FILE) ||| ((bb >>> 10) &&& NOT_GH_FILE)

/-- `move_generator.rs`: entry `s` of `KING_ATTACKS` (`init_king_attacks`,
the parallel-prefix computation). -/
def kingAttacks (s : Square) : Bitboard :=
  let k := squareBB s
  let attacks := (shl64 k 1 &&& NOT_A_FILE) ||| ((k >>> 1) &&& NOT_H_FILE)
  let k := k ||| attacks
  attacks ||| shl64 k 8 ||| (k >>> 8)

/-- `move_generator.rs`: `MoveGenerator::RANK_4_MASK`. -/
def RANK_4_MASK : Bitboard := 4278190080
/-- `move_generator.rs`: `MoveGenerator::RANK_5_MASK`. -/
def RANK_5_MASK : Bitboard := 1095216660480

/-- `move_generator.rs`: `ROOK_DIRECTIONS` (rank offset, file offset). -/
def rookDirections : List (Int × Int) := [(1, 0), (0, 1), (-1, 0), (0, -1)]
/-- `move_generator.rs`: `BISHOP_DIRECTIONS`. -/
def bishopDirections : List (Int × Int) := [(1, 1), (1, -1), (-1, 1), (-1, -1)]

/-- The per-direction loop of `generate_sliding_attack_mask`: OR in the
current square, stop after the first blocker or at the board edge. The
loop advances one rank/file step per iteration inside an 8×8 board, so 8
iterations always suffice (the fuel is never exhausted). -/
def rayAttackLoop : Nat → Int → Int → Int × Int → Bitboard → Bitboard
  | 0, _, _, _, _ => 0
  | fuel + 1, r, f, d, blockers =>
    let nextBB := squareBB (r * 8 + f).toNat
    let r' := r + d.1
    let f' := f + d.2
    if 0 ≤ r' ∧ r' ≤ 7 ∧ 0 ≤ f' ∧ f' ≤ 7 then
      if blockers &&& nextBB ≠ 0 then nextBB
      else nextBB ||| rayAttackLoop fuel r' f' d blockers
    else nextBB

/-- `move_generator.rs`: `generate_sliding_attack_mask`. -/
def slidingAttackMask (s : Square) (blockers : Bitboard) (dirs : List (Int × Int)) : Bitboard :=
  let startRank : Int := (s / 8 : Nat)
  let startFile : Int := (s % 8 : Nat)
  clearBit (dirs.foldl (fun acc d => acc ||| rayAttackLoop 8 startRank startFile d blockers) 0) s

/-- The per-direction loop of `generate_sliding_blocker_mask`: OR in the
current square only when the next step stays on the board (edge squares
along each ray are excluded). -/
def rayBlockerLoop : Nat → Int → Int → Int × Int → Bitboard
  | 0, _, _, _ => 0
  | fuel + 1, r, f, d =>
    let nextBB := squareBB (r * 8 + f).toNat
    let r' := r + d.1
    let f' := f + d.2
    if 0 ≤ r' ∧ r' ≤ 7 ∧ 0 ≤ f' ∧ f' ≤ 7 then nextBB ||| rayBlockerLoop fuel r' f' d
    else 0

/-- `move_generator.rs`: `generate_sliding_blocker_mask`. -/
def slidingBlockerMask (s : Square) (dirs : List (Int × Int)) : Bitboard :=
  let startRank : Int := (s / 8 : Nat)
  let startFile : Int := (s % 8 : Nat)
  clearBit (dirs.foldl (fun acc d => acc ||| rayBlockerLoop 8 startRank startFile d) 0) s

/-- A slider-attack oracle: square and full occupancy to attack set. In
the Rust code this is the magic lookup
`attack_table[magic.get_magic_index(occupancies)]`; the universal
theorems below are quantified over the oracle, so they hold for whatever
the baked-in magic tables contain. -/
abbrev AttackFn := Square → Bitboard → Bitboard

/-- Specification of the rook magic-table lookup: the tables are filled by
`init_rook_attacks` with `generate_sliding_attack_mask(square, blockers,
ROOK_DIRECTIONS)` for every blocker subset of the square's blocker mask.
Used to instantiate the oracle parameters on concrete positions. -/
def rookAttackRay : AttackFn := fun s occ =>
  slidingAttackMask s (occ &&& slidingBlockerMask s rookDirections) rookDirections

/-- Specification of the bishop magic-table lookup (`init_bishop_attacks`). -/
def bishopAttackRay : AttackFn := fun s occ =>
  slidingAttackMask s (occ &&& slidingBlockerMask s bishopDirections) bishopDirections

/-- `Piece::new(side.into(), kind)`-addressed bitboard. The Rust sites
using this (`move_generator.rs`, and the enemy-pawn lookup in
`make_move.rs`) call `get_piece_bb` with `?` or `unwrap()`, which cannot
fail because the color comes from a `Side`; `noPiece` (which would panic)
is given the junk value 0 and is never used. -/
def Board.pieceBbOf (b : Board) (sd : Side) (k : PieceKind) : Bitboard :=
  match sd, k with
  | .white, .pawn => b.whitePawns
  | .white, .knight => b.whiteKnights
  | .white, .bishop => b.whiteBishops
  | .white, .rook => b.whiteRooks
  | .white, .queen => b.whiteQueens
  | .white, .king => b.whiteKing
  | .black, .pawn => b.blackPawns
  | .black, .knight => b.blackKnights
  | .black, .bishop => b.blackBishops
  | .black, .rook => b.blackRooks
  | .black, .queen => b.blackQueens
  | .black, .king => b.blackKing
  | _, .noPiece => 0

/-- `move_generator.rs`: `MoveGenerator::is_square_attacked`, with the two
magic lookups supplied as oracles. -/
def isSquareAttacked (rookAtt bishopAtt : AttackFn) (b : Board) (sq : Square)
    (attackerSide : Side) : Bool :=
  let pawns := b.pieceBbOf attackerSide .pawn
  if pawnAttacks attackerSide.flip sq &&& pawns ≠ 0 then true else
  let king := b.pieceBbOf attackerSide .king
  if kingAttacks sq &&& king ≠ 0 then true else
  let knights := b.pieceBbOf attackerSide .knight
  if knightAttacks sq &&& knights ≠ 0 then true else
  let occ := b.occupancy .white ||| b.occupancy .black
  let bishops := b.pieceBbOf attackerSide .bishop
  let bishopA := bishopAtt sq occ
  if bishopA &&& bishops ≠ 0 then true else
  let rooks := b.pieceBbOf attackerSide .rook
  let rookA := rookAtt sq occ
  if rookA &&& rooks ≠ 0 then true else
  let queens := b.pieceBbOf attackerSide .queen
  if (rookA ||| bishopA) &&& queens ≠ 0 then true else false

/-- `square.rs`/`move_generator.rs`: `is_promotion` — the target square is
on the last rank of the moving side. (`Square::rank` itself is not among
the sources; a square's rank is its index divided by 8, per the `a1=0`
layout.) -/
def isPromotionRank (sd : Side) (toSq : Square) : Bool :=
  match sd with
  | .white => toSq / 8 == 7
  | .black => toSq / 8 == 0

/-- `move_generator.rs`: `push_all_promotions` (knight, bishop, rook,
queen promotion, in source order). -/
def allPromotions (fromSq toSq : Square) : List Move :=
  [Move.make fromSq toSq .promotion .knightPromotion,
   Move.make fromSq toSq .promotion .bishopPromotion,
   Move.make fromSq toSq .promotion .rookPromotion,
   Move.make fromSq toSq .promotion .queenPromotion]

/-- `move_generator.rs`: `generate_pawn_moves`. -/
def generatePawnMoves (b : Board) : List Move :=
  let empty := b.emptySquares
  (bits64 (b.pieceBbOf b.side .pawn)).flatMap (fun fromSq =>
    let singlePush := pawnPushes b.side fromSq &&& empty
    let doublePush := match b.side with
      | .white => shl64 singlePush 8 &&& RANK_4_MASK &&& empty
      | .black => (singlePush >>> 8) &&& RANK_5_MASK &&& empty
    let pushMoves := (bits64 singlePush).take 1 |>.flatMap (fun toSq =>
      if isPromotionRank b.side toSq then allPromotions fromSq toSq
      else [Move.make fromSq toSq .quiet .noFlag])
    let doubleMoves := (bits64 doublePush).take 1 |>.map (fun toSq =>
      Move.make fromSq toSq .quiet .noFlag)
    let epBB := if b.enPassantSquare = noneSquare then 0 else squareBB b.enPassantSquare
    let enemySide := match b.side with
      | .white => Side.black
      | .black => Side.white
    let enemy := b.occupancy enemySide ||| epBB
    let attackMoves :=
      (bits64 (pawnAttacks b.side fromSq &&& enemy)).flatMap (fun toSq =>
        if isPromotionRank b.side toSq then allPromotions fromSq toSq
        else
          let flag := if toSq = b.enPassantSquare then MoveFlag.enPassant else MoveFlag.noFlag
          [Move.make fromSq toSq .capture flag])
    pushMoves ++ doubleMoves ++ attackMoves)

/-- `move_generator.rs`: `generate_knight_moves`. -/
def generateKnightMoves (b : Board) : List Move :=
  let own := b.occupancy b.side
  let enemy := b.occupancy b.side.flip
  (bits64 (b.pieceBbOf b.side .knight)).flatMap (fun fromSq =>
    (bits64 (knightAttacks fromSq &&& not64 own)).map (fun toSq =>
      Move.make fromSq toSq
        (if squareBB toSq &&& enemy ≠ 0 then .capture else .quiet) .noFlag))

/-- `move_generator.rs`: `generate_king_moves`. The Rust code pops a
single square off the king bitboard, modelled by `take 1` of the set-bit
list (an empty king bitboard would panic inside `pop_bit`'s square
conversion; here it yields no moves). -/
def generateKingMoves (b : Board) : List Move :=
  let own := b.occupancy b.side
  let enemy := b.occupancy b.side.flip
  (bits64 (b.pieceBbOf b.side .king)).take 1 |>.flatMap (fun fromSq =>
    (bits64 (kingAttacks fromSq &&& not64 own)).map (fun toSq =>
      Move.make fromSq toSq
        (if squareBB toSq &&& enemy ≠ 0 then .capture else .quiet) .noFlag))

/-- `move_generator.rs`: `generate_rook_moves` (magic lookup as oracle). -/
def generateRookMoves (rookAtt : AttackFn) (b : Board) : List Move :=
  let own := b.occupancy b.side
  let enemy := b.occupancy b.side.flip
  (bits64 (b.pieceBbOf b.side .rook)).flatMap (fun fromSq =>
    let occ := own ||| enemy
    (bits64 (rookAtt fromSq occ &&& not64 own)).map (fun toSq =>
      Move.make fromSq toSq
        (if squareBB toSq &&& enemy ≠ 0 then .capture else .quiet) .noFlag))

/-- `move_generator.rs`: `generate_bishop_moves`. -/
def generateBishopMoves (bishopAtt : AttackFn) (b : Board) : List Move :=
  let own := b.occupancy b.side
  let enemy := b.occupancy b.side.flip
  (bits64 (b.pieceBbOf b.side .bishop)).flatMap (fun fromSq =>
    let occ := own ||| enemy
    (bits64 (bishopAtt fromSq occ &&& not64 own)).map (fun toSq =>
      Move.make fromSq toSq
        (if squareBB toSq &&& enemy ≠ 0 then .capture else .quiet) .noFlag))

/-- `move_generator.rs`: `generate_queen_moves` (bishop OR rook attacks). -/
def generateQueenMoves (rookAtt bishopAtt : AttackFn) (b : Board) : List Move :=
  let own := b.occupancy b.side
  let enemy := b.occupancy b.side.flip
  (bits64 (b.pieceBbOf b.side .queen)).flatMap (fun fromSq =>
    let occ := own ||| enemy
    (bits64 ((bishopAtt fromSq occ ||| rookAtt fromSq occ) &&& not64 own)).map (fun toSq =>
      Move.make fromSq toSq
        (if squareBB toSq &&& enemy ≠ 0 then .capture else .quiet) .noFlag))

/-- `move_generator.rs`: `generate_castling_moves`, with the attack query
(`is_square_attacked`) supplied as a predicate parameter. Square indices:
B1=1, C1=2, D1=3, E1=4, F1=5, G1=6 and B8=57, C8=58, D8=59, E8=60, F8=61,
G8=62. -/
def generateCastlingMoves (att : Board → Square → Side → Bool) (b : Board) : List Move :=
  let occ := b.occupancy .white ||| b.occupancy .black
  match b.side with
  | .white =>
    (if b.canCastle whiteKingCastle && !isOccupied occ 5 && !isOccupied occ 6 &&
        !att b 4 .black && !att b 5 .black
     then [Move.make 4 6 .castle .noFlag] else []) ++
    (if b.canCastle whiteQueenCastle && !isOccupied occ 3 && !isOccupied occ 2 &&
        !isOccupied occ 1 && !att b 4 .black && !att b 3 .black
     then [Move.make 4 2 .castle .noFlag] else [])
  | .black =>
    (if b.canCastle blackKingCastle && !isOccupied occ 61 && !isOccupied occ 62 &&
        !att b 60 .white && !att b 61 .white
     then [Move.make 60 62 .castle .noFlag] else []) ++
    (if b.canCastle blackQueenCastle && !isOccupied occ 59 && !isOccupied occ 58 &&
        !isOccupied occ 57 && !att b 60 .white && !att b 59 .white
     then [Move.make 60 58 .castle .noFlag] else [])

/-- `move_generator.rs`: `generate_all_moves` — pawn, king, castling,
knight, bishop, rook, queen, in source order. -/
def generateAllMoves (rookAtt bishopAtt : AttackFn) (b : Board) : List Move :=
  generatePawnMoves b ++
  generateKingMoves b ++
  generateCastlingMoves (isSquareAttacked rookAtt bishopAtt) b ++
  generateKnightMoves b ++
  generateBishopMoves bishopAtt b ++
  generateRookMoves rookAtt b ++
  generateQueenMoves rookAtt bishopAtt b

/-- `evaluate.rs`: `Piece::material_value` (P=100, N=300, B=300, R=500,
Q=900, K=0, NoPiece=0). -/
def materialValue (p : Piece) : Int :=
  match p.kind with
  | .pawn => 100
  | .knight => 300
  | .bishop => 300
  | .rook => 500
  | .queen => 900
  | .king => 0
  | .noPiece => 0

/-- `search.rs`: `CAPTURE_SCORE_OFFSET`. -/
def CAPTURE_SCORE_OFFSET : Int := 1000
/-- `search.rs`: `TT_SCORE_OFFSET = CAPTURE_SCORE_OFFSET + 10000`. -/
def TT_SCORE_OFFSET : Int := CAPTURE_SCORE_OFFSET + 10000
/-- `search.rs`: `FIRST_KILLER_SCORE = CAPTURE_SCORE_OFFSET - 1`. -/
def FIRST_KILLER_SCORE : Int := CAPTURE_SCORE_OFFSET - 1
/-- `search.rs`: `SECOND_KILLER_SCORE = CAPTURE_SCORE_OFFSET - 2`. -/
def SECOND_KILLER_SCORE : Int := CAPTURE_SCORE_OFFSET - 2
/-- `search.rs`: `COUNTER_MOVE_BONUS`. -/
def COUNTER_MOVE_BONUS : Int := 1
/-- `search.rs`: `MAX_HISTORY_SCORE = SECOND_KILLER_SCORE - COUNTER_MOVE_BONUS - 1`. -/
def MAX_HISTORY_SCORE : Int := SECOND_KILLER_SCORE - COUNTER_MOVE_BONUS - 1

/-- The per-side history table `history: [[[u32; 64]; 64]; 2]` of
`search.rs`, as a function side → from-square → to-square → counter.
(`Side::index`, used for the first dimension, is not among the sources;
the table is indexed by side directly.) -/
abbrev HistoryTable := Side → Nat → Nat → Nat

/-- The per-side counter-move table `counter_moves: [[[Move; 64]; 64]; 2]`. -/
abbrev CounterTable := Side → Nat → Nat → Move

/-- `search.rs`: the score `Search::score_moves` computes for one move:
TT move, then MVV-LVA for moves whose *target square* holds a piece, then
the two killers, then history plus the counter-move bonus. `killer0` and
`killer1` are `killer_moves[ply]` of the current ply; move comparisons
use the score-masked `PartialEq`. -/
def moveOrderScore (b : Board) (ttMove killer0 killer1 : Move)
    (history : HistoryTable) (counter : CounterTable) (prevMove mv : Move) : Int :=
  let victim := b.getPiece mv.toSq
  if mv.eqMasked ttMove then TT_SCORE_OFFSET
  else if victim.kind ≠ .noPiece then
    let attacker := b.getPiece mv.fromSq
    CAPTURE_SCORE_OFFSET + 10 * materialValue victim - materialValue attacker
  else if mv.eqMasked killer0 then FIRST_KILLER_SCORE
  else if mv.eqMasked killer1 then SECOND_KILLER_SCORE
  else
    (history b.side mv.fromSq mv.toSq : Int) +
      (if (counter b.side prevMove.fromSq prevMove.toSq).eqMasked mv then COUNTER_MOVE_BONUS
       else 0)

/-- Rust `as u32` on an `i32` value. -/
def castU32 (i : Int) : Nat := (i % (2 ^ 32 : Int)).toNat

/-- `search.rs`: `Search::score_moves` — every move in the list receives
its ordering score via `set_score(score as u32)` (the two `assert!`s on
the score's range are the subject of the C9 theorem). -/
def scoreMoves (b : Board) (ttMove killer0 killer1 : Move)
    (history : HistoryTable) (counter : CounterTable) (prevMove : Move)
    (moves : List Move) : List Move :=
  moves.map (fun mv =>
    mv.setScore (castU32 (moveOrderScore b ttMove killer0 killer1 history counter prevMove mv)))

/-- `search.rs`: `Search::update_history_score` — quiet cutoffs add
`depth²` to `history[side][from][to]`; when the updated entry exceeds
`MAX_HISTORY_SCORE` every entry of that side's table is halved. -/
def updateHistoryScore (history : HistoryTable) (side : Side) (mv : Move)
    (depth : Nat) : HistoryTable :=
  if mv.kind = .capture then history
  else
    let updated : HistoryTable := fun sd f t =>
      if sd = side ∧ f = mv.fromSq ∧ t = mv.toSq then history sd f t + depth * depth
      else history sd f t
    if updated side mv.fromSq mv.toSq > MAX_HISTORY_SCORE.toNat then
      fun sd f t => if sd = side then updated sd f t / 2 else updated sd f t
    else updated

/-- `time_management.rs`: `enum SearchDuration`. -/
inductive SearchDuration where
  | finite (ms : Nat)
  | infinite
deriving DecidableEq, Repr

/-- The Rust expression `(time as f64 / moves_to_go as f64).round() as
u128`: exact division rounded half away from zero. This agrees with the
`f64` computation for every `time < 2^52` (any realistic millisecond
clock); `moves_to_go = 0` gives `inf` whose saturating cast is
`u128::MAX`. -/
def roundDiv (time mtg : Nat) : Nat :=
  if mtg = 0 then 2 ^ 128 - 1 else (2 * time + mtg) / (2 * mtg)

/-- `time_management.rs`: the duration computed by
`SearchTimer::initialize`: `moves_to_go` defaults to 30; with no
remaining time the duration is infinite; otherwise
`round(time / moves_to_go) + increment - 50` in `u128` arithmetic — in
release builds a result below zero wraps modulo `2^128` (debug builds
panic on the subtraction), which the explicit `% 2^128` captures. -/
def searchTimerInit (timeRemaining : Option Nat) (increment : Nat)
    (movesToGo : Option Nat) : SearchDuration :=
  let mtg := movesToGo.getD 30
  match timeRemaining with
  | some time => .finite ((roundDiv time mtg + increment + (2 ^ 128 - 50)) % 2 ^ 128)
  | none => .infinite

/-- `square.rs`: `impl TryFrom<char> for Piece` (the 12 FEN piece
letters). -/
def pieceOfChar (c : Char) : Option Piece :=
  if c = 'p' then some ⟨.black, .pawn⟩
  else if c = 'n' then some ⟨.black, .knight⟩
  else if c = 'b' then some ⟨.black, .bishop⟩
  else if c = 'r' then some ⟨.black, .rook⟩
  else if c = 'q' then some ⟨.black, .queen⟩
  else if c = 'k' then some ⟨.black, .king⟩
  else if c = 'P' then some ⟨.white, .pawn⟩
  else if c = 'N' then some ⟨.white, .knight⟩
  else if c = 'B' then some ⟨.white, .bishop⟩
  else if c = 'R' then some ⟨.white, .rook⟩
  else if c = 'Q' then some ⟨.white, .queen⟩
  else if c = 'K' then some ⟨.white, .king⟩
  else Option.none

/-- `board.rs`: `impl TryFrom<char> for CastlingKind`. -/
def castlingKindOfChar (c : Char) : Option Nat :=
  if c = 'K' then some whiteKingCastle
  else if c = 'Q' then some whiteQueenCastle
  else if c = 'k' then some blackKingCastle
  else if c = 'q' then some blackQueenCastle
  else Option.none

/-- `square.rs`: `Rank::try_from(char)` — `'1'..'8'` to rank index 0..7;
everything else fails (a `'0'` wraps the `usize` subtraction in release
builds and then fails the range check). -/
def rankOfChar (c : Char) : Option Nat :=
  if '1' ≤ c ∧ c ≤ '8' then some (c.toNat - 49) else Option.none

/-- `square.rs`: `File::try_from(char)` — `'a'..'h'` to file index 0..7. -/
def fileOfChar (c : Char) : Option Nat :=
  if 'a' ≤ c ∧ c ≤ 'h' then some (c.toNat - 97) else Option.none

/-- `Board::add_piece` inside FEN parsing: an error carries the board
state at the point of failure (the Rust `?` returns with `self` already
partially mutated). -/
def parseRankChars : Board → Nat → Nat → List Char → Except (String × Board) Board
  | b, _, _, [] => .ok b
  | b, rankIdx, fileIdx, c :: rest =>
    match pieceOfChar c with
    | some p =>
      if fileIdx > 7 then .error ("Invalid file", b)
      else
        match b.addPiece p (rankIdx * 8 + fileIdx) with
        | .ok b' => parseRankChars b' rankIdx (fileIdx + 1) rest
        | .error e => .error (e, b)
    | Option.none =>
      if '1' ≤ c ∧ c ≤ '8' then parseRankChars b rankIdx (fileIdx + (c.toNat - 48)) rest
      else .error ("FEN has invalid character in piece placement data", b)

/-- The rank loop of `Board::parse_fen` (ranks already reversed and
enumerated, so index 0 is rank 1). -/
def parseRanks : Board → List (Nat × List Char) → Except (String × Board) Board
  | b, [] => .ok b
  | b, (idx, line) :: rest =>
    match parseRankChars b idx 0 line with
    | .ok b' => parseRanks b' rest
    | .error e => .error e

/-- The castling-rights loop of `Board::parse_fen`. -/
def parseCastlingChars : Board → List Char → Except (String × Board) Board
  | b, [] => .ok b
  | b, c :: rest =>
    if c = '-' then parseCastlingChars b rest
    else
      match castlingKindOfChar c with
      | some k => parseCastlingChars { b with castlingRights := b.castlingRights ||| k } rest
      | Option.none => .error ("Invalid castling rights character", b)

/-- Rust's `str::split(c)` for a single-character separator, at the
character-list level (so that it reduces in the kernel): splitting an
empty string yields one empty piece; consecutive separators yield empty
pieces, exactly as `String.splitOn`/Rust `split` do. -/
def charSplit (sep : Char) : List Char → List (List Char)
  | [] => [[]]
  | c :: rest =>
    if c = sep then [] :: charSplit sep rest
    else
      match charSplit sep rest with
      | [] => [[c]]
      | g :: gs => (c :: g) :: gs

/-- Rust `str::parse::<usize>`: the accumulator loop over the digits. -/
def digitsToNatAux : Nat → List Char → Option Nat
  | acc, [] => some acc
  | acc, c :: rest =>
    if '0' ≤ c ∧ c ≤ '9' then digitsToNatAux (acc * 10 + (c.toNat - 48)) rest
    else Option.none

/-- Rust `str::parse::<usize>`: an optional leading `+` followed by at
least one decimal digit (the empty string and a lone `+` are errors). -/
def digitsToNat? : List Char → Option Nat
  | [] => Option.none
  | ['+'] => Option.none
  | '+' :: c :: cs => digitsToNatAux 0 (c :: cs)
  | cs => digitsToNatAux 0 cs

/-- `board.rs`: `Board::parse_fen`. Returns the board state after the
call together with the error, if any — the Rust method mutates `&mut
self` in place and `bail!`s part-way, so on error the board holds the
reset-and-partially-repopulated state, not its prior contents. Field
splitting (`fen.split(' ')`, `placement.split('/')`) is embedded at the
character level by `charSplit`, which agrees with Rust's
single-character `split`. -/
def parseFen (b0 : Board) (fen : String) : Board × Option String :=
  let b := b0.reset
  let fields := charSplit ' ' fen.toList
  if fields.length ≠ 6 then (b, some "FEN has invalid number of fields") else
  let ranks := (charSplit '/' (fields.getD 0 [])).reverse
  if ranks.length ≠ 8 then (b, some "FEN has invalid number of ranks") else
  match parseRanks b ranks.enum with
  | .error (msg, b') => (b', some msg)
  | .ok b =>
    let sideChar := (fields.getD 1 []).head?
    if sideChar = some 'w' ∨ sideChar = some 'b' then
      let b := { b with side := if sideChar = some 'w' then Side.white else Side.black }
      match parseCastlingChars b (fields.getD 2 []) with
      | .error (msg, b') => (b', some msg)
      | .ok b =>
        let epChars := fields.getD 3 []
        let epFileChar := epChars.getD 0 '-'
        let epRankChar := epChars.getD 1 '-'
        let epSq : Square :=
          match rankOfChar epRankChar, fileOfChar epFileChar with
          | some r, some f => r * 8 + f
          | _, _ => noneSquare
        let b := { b with enPassantSquare := epSq }
        match digitsToNat? (fields.getD 4 []) with
        | some n =>
          let b := { b with halfmoveClock := n }
          ({ b with hash := hashPosition b }, Option.none)
        | Option.none => (b, some "invalid halfmove clock")
    else (b, some "FEN has invalid side notation")

/-- The board carried by either constructor of the parse-helper results
(`parse_fen` mutates `&mut self`, so on `bail!` the partially written
board is what the caller is left with). -/
def resBoard : Except (String × Board) Board → Board
  | .ok b => b
  | .error (_, b) => b

/-- The malformed-FEN classes of C4 (amended): wrong space-separated
field count, wrong rank count, a piece-placement character that is
neither a piece letter nor a digit `1`-`8`, a side letter other than
`w`/`b`, a castling character other than `K`/`Q`/`k`/`q`/`-`, or a
halfmove-clock field that `usize` parsing rejects. -/
def fenMalformed (fen : String) : Prop :=
  (charSplit ' ' fen.toList).length ≠ 6 ∨
  (charSplit '/' ((charSplit ' ' fen.toList).getD 0 [])).length ≠ 8 ∨
  (∃ line ∈ charSplit '/' ((charSplit ' ' fen.toList).getD 0 []),
    ∃ c ∈ line, pieceOfChar c = Option.none ∧ ¬('1' ≤ c ∧ c ≤ '8')) ∨
  (((charSplit ' ' fen.toList).getD 1 []).head? ≠ some 'w' ∧
    ((charSplit ' ' fen.toList).getD 1 []).head? ≠ some 'b') ∨
  (∃ c ∈ (charSplit ' ' fen.toList).getD 2 [],
    c ≠ '-' ∧ castlingKindOfChar c = Option.none) ∨
  digitsToNat? ((charSplit ' ' fen.toList).getD 4 []) = Option.none

instance (fen : String) : Decidable (fenMalformed fen) := by
  unfold fenMalformed; infer_instance

/-!  Specification predicates used by the theorems. -/

deriving instance Fintype for Side
deriving instance Fintype for PieceColor
deriving instance Fintype for PieceKind

/-- A piece that can occur on an occupied square of a consistent board:
real color, real kind. -/
def validPiece (p : Piece) : Prop :=
  (p.color = .white ∨ p.color = .black) ∧ p.kind ≠ .noPiece

instance (p : Piece) : Decidable (validPiece p) := by
  unfold validPiece; infer_instance

/-- The §3 board invariants the round-trip proof relies on: mailbox of
length 64 with valid entries, all bitboards below `2^64`, bitboards and
occupancies in lockstep with the mailbox. -/
def BoardConsistent (b : Board) : Prop :=
  b.pieces.length = 64 ∧
  b.whitePawns < U64 ∧ b.whiteKnights < U64 ∧ b.whiteBishops < U64 ∧
  b.whiteRooks < U64 ∧ b.whiteQueens < U64 ∧ b.whiteKing < U64 ∧
  b.blackPawns < U64 ∧ b.blackKnights < U64 ∧ b.blackBishops < U64 ∧
  b.blackRooks < U64 ∧ b.blackQueens < U64 ∧ b.blackKing < U64 ∧
  b.whiteOccupancies < U64 ∧ b.blackOccupancies < U64 ∧
  (∀ s, s < 64 → b.getPiece s = Piece.empty ∨ validPiece (b.getPiece s)) ∧
  (∀ s, s < 64 → ∀ sd : Side, ∀ k : PieceKind, k ≠ .noPiece →
    ((b.pieceBbOf sd k).testBit s = true ↔ b.getPiece s = ⟨sd.toColor, k⟩)) ∧
  (∀ s, s < 64 → (b.whiteOccupancies.testBit s = true ↔ (b.getPiece s).color = .white)) ∧
  (∀ s, s < 64 → (b.blackOccupancies.testBit s = true ↔ (b.getPiece s).color = .black))

instance (b : Board) : Decidable (BoardConsistent b) := by
  unfold BoardConsistent; infer_instance

/-- The square "behind" the en-passant square: the square the
double-pushed enemy pawn now stands on. -/
def epBehind (b : Board) : Square :=
  match b.side with
  | .white => b.enPassantSquare - 8
  | .black => b.enPassantSquare + 8

/-- Formalisation of a *legal position* as far as the claims need it:
consistency, the en-passant invariant (spec §3 invariant 6, together with
the facts that the EP square is empty and the pushed enemy pawn stands
behind it, which hold in every position reachable by legal play), and
castling-rights validity (a held right implies king and rook on their
home squares, true of every legal position). -/
def BoardOk (b : Board) : Prop :=
  BoardConsistent b ∧
  (b.enPassantSquare = noneSquare ∨
    (b.enPassantSquare < 64 ∧
     (b.side = .white → b.enPassantSquare / 8 = 5) ∧
     (b.side = .black → b.enPassantSquare / 8 = 2) ∧
     b.getPiece b.enPassantSquare = Piece.empty ∧
     b.getPiece (epBehind b) = ⟨b.side.flip.toColor, .pawn⟩)) ∧
  (b.canCastle whiteKingCastle = true → b.getPiece 4 = ⟨.white, .king⟩ ∧ b.getPiece 7 = ⟨.white, .rook⟩) ∧
  (b.canCastle whiteQueenCastle = true → b.getPiece 4 = ⟨.white, .king⟩ ∧ b.getPiece 0 = ⟨.white, .rook⟩) ∧
  (b.canCastle blackKingCastle = true → b.getPiece 60 = ⟨.black, .king⟩ ∧ b.getPiece 63 = ⟨.black, .rook⟩) ∧
  (b.canCastle blackQueenCastle = true → b.getPiece 60 = ⟨.black, .king⟩ ∧ b.getPiece 56 = ⟨.black, .rook⟩)

instance (b : Board) : Decidable (BoardOk b) := by
  unfold BoardOk; infer_instance

/-- `make_move.rs`: the square of the pawn captured en passant (south of
the target for a White capture, north for Black). -/
def epCaptureSquare (sd : Side) (toSq : Square) : Square :=
  match sd with
  | .white => toSq - 8
  | .black => toSq + 8

/-- The four promotion flags. -/
def promoFlagOk (f : MoveFlag) : Prop :=
  f = .knightPromotion ∨ f = .bishopPromotion ∨ f = .rookPromotion ∨ f = .queenPromotion

instance (f : MoveFlag) : Decidable (promoFlagOk f) := by
  unfold promoFlagOk; infer_instance

/-- Rook source square of a castle, keyed by the king's target square. -/
def castleRookFrom : Square → Square
  | 6 => 7
  | 2 => 0
  | 62 => 63
  | 58 => 56
  | _ => 0

/-- Rook target square of a castle, keyed by the king's target square. -/
def castleRookTo : Square → Square
  | 6 => 5
  | 2 => 3
  | 62 => 61
  | 58 => 59
  | _ => 0

/-- Shape conditions a pseudo-legal move generated from a legal position
satisfies; these are exactly the facts the make/unmake round trip needs.
They are derived from generator membership plus `BoardOk` below. -/
def MoveShapeOk (b : Board) (mv : Move) : Prop :=
  mv.fromSq < 64 ∧ mv.toSq < 64 ∧ mv.fromSq ≠ mv.toSq ∧
  validPiece (b.getPiece mv.fromSq) ∧
  (mv.kind = .quiet → b.getPiece mv.toSq = Piece.empty) ∧
  (mv.kind = .capture → mv.flag ≠ .enPassant →
    validPiece (b.getPiece mv.toSq) ∧
    (b.getPiece mv.toSq).color ≠ (b.getPiece mv.fromSq).color) ∧
  (mv.kind = .capture → mv.flag = .enPassant →
    b.getPiece mv.toSq = Piece.empty ∧
    epCaptureSquare b.side mv.toSq < 64 ∧
    epCaptureSquare b.side mv.toSq ≠ mv.fromSq ∧
    epCaptureSquare b.side mv.toSq ≠ mv.toSq ∧
    validPiece (b.getPiece (epCaptureSquare b.side mv.toSq)) ∧
    b.getPiece (epCaptureSquare b.side mv.toSq) ≠ b.getPiece mv.fromSq) ∧
  (mv.kind = .castle →
    ((mv.fromSq = 4 ∧ (mv.toSq = 6 ∨ mv.toSq = 2)) ∨
     (mv.fromSq = 60 ∧ (mv.toSq = 62 ∨ mv.toSq = 58))) ∧
    b.getPiece mv.toSq = Piece.empty ∧
    validPiece (b.getPiece (castleRookFrom mv.toSq)) ∧
    b.getPiece (castleRookFrom mv.toSq) ≠ b.getPiece mv.fromSq ∧
    b.getPiece (castleRookTo mv.toSq) = Piece.empty) ∧
  (mv.kind = .promotion →
    promoFlagOk mv.flag ∧
    b.getPiece mv.fromSq = ⟨b.side.toColor, .pawn⟩ ∧
    (b.getPiece mv.toSq = Piece.empty ∨
      (validPiece (b.getPiece mv.toSq) ∧ (b.getPiece mv.toSq).color = b.side.flip.toColor)))

set_option synthInstance.maxSize 512 in
set_option synthInstance.maxHeartbeats 1000000 in
instance (b : Board) (mv : Move) : Decidable (MoveShapeOk b mv) := by
  unfold MoveShapeOk; infer_instance

/-- Bound on history-table entries maintained by `update_history_score`
for the depths the search can pass (≤ 65): `MAX_HISTORY_SCORE + 65²` is
at most `2 · 4225`, so entries never exceed 4225. -/
def HistBounded (h : HistoryTable) : Prop := ∀ sd f t, h sd f t ≤ 4225

/-!  Concrete positions and moves used by witnesses and counterexamples. -/

/-- The standard initial-position FEN (`position startpos`). -/
def startposFEN : String := "rnbqkbnr/pppppppp/8/8/8/8/PPPPPPPP/RNBQKBNR w KQkq - 0 1"

/-- The board obtained by parsing the initial position. -/
def startBoard : Board := (parseFen Board.default startposFEN).1

/-- The quiet pawn push e2e3 (squares 12 → 20). -/
def moveE2E3 : Move := Move.make 12 20 .quiet .noFlag

/-- The quiet pawn double push e2e4 (squares 12 → 28). -/
def moveE2E4 : Move := Move.make 12 28 .quiet .noFlag

/-- The board after making e2e3 from the initial position. -/
def boardAfterE2E3 : Board :=
  match startBoard.makeMove moveE2E3 with
  | .ok b => b
  | .error _ => Board.default

/-- A position with en-passant square c6 available to the White pawn on
d5 (Black just played c7c5). -/
def epFEN : String := "rnbqkbnr/pp1ppppp/8/2pP4/8/8/PPP1PPPP/RNBQKBNR w KQkq c6 0 3"

/-- The parsed en-passant test position. -/
def epBoard : Board := (parseFen Board.default epFEN).1

/-- The en-passant capture d5xc6 (squares 35 → 42). -/
def epCaptureMove : Move := Move.make 35 42 .capture .enPassant

/-- A fresh (all-zero) history table. -/
def zeroHistory : HistoryTable := fun _ _ _ => 0

/-- A fresh counter-move table (all null moves). -/
def emptyCounters : CounterTable := fun _ _ _ => Move.nullMove

/-- Both sides retain all castling rights and the back ranks are clear. -/
def castleFEN : String := "r3k2r/8/8/8/8/8/8/R3K2R w KQkq - 0 1"

/-- The parsed castling test position. -/
def castleBoard : Board := (parseFen Board.default castleFEN).1

/-- Same position with a black rook on e4 attacking e1. -/
def castleAttackedBoard : Board :=
  (parseFen Board.default "r3k2r/8/8/8/4r3/8/8/R3K2R w KQkq - 0 1").1

/-- A history table with one entry at the exact `MAX_HISTORY_SCORE`
ceiling, used to exhibit the halving rule overshooting the killer scores. -/
def c9HistTable : HistoryTable := fun _ f t => if f = 0 ∧ t = 1 then 996 else 0

/-- A quiet move from square 0 to square 1. -/
def c9QuietMove : Move := Move.make 0 1 .quiet .noFlag

/-- The square a double-pushed pawn jumps over, as `make_move` computes it
(`from_square.north()` for White, `.south()` for Black). -/
def epJump (sd : Side) (fromSq : Square) : Square :=
  match sd with
  | .white => fromSq.north
  | .black => fromSq.south

/-- White to move; the black pawn on c4 can capture on d3, so `d2d4` sets
the en-passant square. -/
def dpFEN : String := "rnbqkbnr/pp1ppppp/8/8/2p5/8/PPPPPPPP/RNBQKBNR w KQkq - 0 3"

/-- Parse of `dpFEN`. -/
def dpBoard : Board := (parseFen Board.default dpFEN).1

/-- The double push d2 (11) → d4 (27). -/
def dpMove : Move := Move.make 11 27 .quiet .noFlag

/-- The board after `dpMove` (the make succeeds; the error arm is junk). -/
def dpAfter : Board :=
  match dpBoard.makeMove dpMove with
  | .ok b => b
  | .error _ => Board.default

/-- Total model of a successful `Board::add_piece` (agreement with
`Board.addPiece` for valid pieces is proved in `addPiece_eq`); used to
state what the fallible operation returns. Invalid pieces return the
board unchanged (never reached under the agreement hypotheses). -/
def Board.addP (b : Board) (p : Piece) (s : Square) : Board :=
  match p.color, p.kind with
  | .white, .pawn =>
    { b with
      whitePawns := setBit b.whitePawns s
      whiteOccupancies := setBit b.whiteOccupancies s
      pieces := b.pieces.set s p }
  | .white, .knight =>
    { b with
      whiteKnights := setBit b.whiteKnights s
      whiteOccupancies := setBit b.whiteOccupancies s
      pieces := b.pieces.set s p }
  | .white, .bishop =>
    { b with
      whiteBishops := setBit b.whiteBishops s
      whiteOccupancies := setBit b.whiteOccupancies s
      pieces := b.pieces.set s p }
  | .white, .rook =>
    { b with
      whiteRooks := setBit b.whiteRooks s
      whiteOccupancies := setBit b.whiteOccupancies s
      pieces := b.pieces.set s p }
  | .white, .queen =>
    { b with
      whiteQueens := setBit b.whiteQueens s
      whiteOccupancies := setBit b.whiteOccupancies s
      pieces := b.pieces.set s p }
  | .white, .king =>
    { b with
      whiteKing := setBit b.whiteKing s
      whiteOccupancies := setBit b.whiteOccupancies s
      pieces := b.pieces.set s p }
  | .black, .pawn =>
    { b with
      blackPawns := setBit b.blackPawns s
      blackOccupancies := setBit b.blackOccupancies s
      pieces := b.pieces.set s p }
  | .black, .knight =>
    { b with
      blackKnights := setBit b.blackKnights s
      blackOccupancies := setBit b.blackOccupancies s
      pieces := b.pieces.set s p }
  | .black, .bishop =>
    { b with
      blackBishops := setBit b.blackBishops s
      blackOccupancies := setBit b.blackOccupancies s
      pieces := b.pieces.set s p }
  | .black, .rook =>
    { b with
      blackRooks := setBit b.blackRooks s
      blackOccupancies := setBit b.blackOccupancies s
      pieces := b.pieces.set s p }
  | .black, .queen =>
    { b with
      blackQueens := setBit b.blackQueens s
      blackOccupancies := setBit b.blackOccupancies s
      pieces := b.pieces.set s p }
  | .black, .king =>
    { b with
      blackKing := setBit b.blackKing s
      blackOccupancies := setBit b.blackOccupancies s
      pieces := b.pieces.set s p }
  | _, _ => b

/-- Total model of a successful `Board::remove_piece` (agreement with
`Board.removePiece` in `removePiece_eq`). -/
def Board.removeP (b : Board) (s : Square) : Board :=
  match (b.getPiece s).color, (b.getPiece s).kind with
  | .white, .pawn =>
    { b with
      whitePawns := clearBit b.whitePawns s
      whiteOccupancies := clearBit b.whiteOccupancies s
      pieces := b.pieces.set s Piece.empty }
  | .white, .knight =>
    { b with
      whiteKnights := clearBit b.whiteKnights s
      whiteOccupancies := clearBit b.whiteOccupancies s
      pieces := b.pieces.set s Piece.empty }
  | .white, .bishop =>
    { b with
      whiteBishops := clearBit b.whiteBishops s
      whiteOccupancies := clearBit b.whiteOccupancies s
      pieces := b.pieces.set s Piece.empty }
  | .white, .rook =>
    { b with
      whiteRooks := clearBit b.whiteRooks s
      whiteOccupancies := clearBit b.whiteOccupancies s
      pieces := b.pieces.set s Piece.empty }
  | .white, .queen =>
    { b with
      whiteQueens := clearBit b.whiteQueens s
      whiteOccupancies := clearBit b.whiteOccupancies s
      pieces := b.pieces.set s Piece.empty }
  | .white, .king =>
    { b with
      whiteKing := clearBit b.whiteKing s
      whiteOccupancies := clearBit b.whiteOccupancies s
      pieces := b.pieces.set s Piece.empty }
  | .black, .pawn =>
    { b with
      blackPawns := clearBit b.blackPawns s
      blackOccupancies := clearBit b.blackOccupancies s
      pieces := b.pieces.set s Piece.empty }
  | .black, .knight =>
    { b with
      blackKnights := clearBit b.blackKnights s
      blackOccupancies := clearBit b.blackOccupancies s
      pieces := b.pieces.set s Piece.empty }
  | .black, .bishop =>
    { b with
      blackBishops := clearBit b.blackBishops s
      blackOccupancies := clearBit b.blackOccupancies s
      pieces := b.pieces.set s Piece.empty }
  | .black, .rook =>
    { b with
      blackRooks := clearBit b.blackRooks s
      blackOccupancies := clearBit b.blackOccupancies s
      pieces := b.pieces.set s Piece.empty }
  | .black, .queen =>
    { b with
      blackQueens := clearBit b.blackQueens s
      blackOccupancies := clearBit b.blackOccupancies s
      pieces := b.pieces.set s Piece.empty }
  | .black, .king =>
    { b with
      blackKing := clearBit b.blackKing s
      blackOccupancies := clearBit b.blackOccupancies s
      pieces := b.pieces.set s Piece.empty }
  | _, _ => b

/-!  Helper lemmas. -/

theorem Side.flip_flip (s : Side) : s.flip.flip = s := by
  cases s <;> rfl

theorem MoveKind.code_lt4 (k : MoveKind) : k.code < 4 := by
  cases k <;> decide

theorem MoveFlag.code_lt8 (f : MoveFlag) : f.code < 8 := by
  cases f <;> decide

theorem MoveKind.ofCode_code4 (k : MoveKind) : MoveKind.ofCode k.code = k := by
  cases k <;> rfl

theorem MoveFlag.ofCode_code8 (f : MoveFlag) : MoveFlag.ofCode f.code = f := by
  cases f <;> rfl

theorem Move.make_val {f t : Nat} (k : MoveKind) (fl : MoveFlag)
    (hf : f < 64) (ht : t < 64) :
    (Move.make f t k fl).val = f + 64 * t + 4096 * k.code + 16384 * fl.code := by
  have hk := k.code_lt4
  have hfl := fl.code_lt8
  show f ||| (t <<< 6) ||| (k.code <<< 12) ||| (fl.code <<< 14) = _
  rw [Nat.shiftLeft_eq, Nat.shiftLeft_eq, Nat.shiftLeft_eq]
  have h1 : f ||| t * 2 ^ 6 = 2 ^ 6 * t + f := by
    rw [Nat.lor_comm, Nat.mul_comm t]
    exact (Nat.mul_add_lt_is_or hf t).symm
  have h2 : 2 ^ 6 * t + f ||| k.code * 2 ^ 12 = 2 ^ 12 * k.code + (2 ^ 6 * t + f) := by
    rw [Nat.lor_comm, Nat.mul_comm k.code]
    exact (Nat.mul_add_lt_is_or (by omega) k.code).symm
  have h3 : 2 ^ 12 * k.code + (2 ^ 6 * t + f) ||| fl.code * 2 ^ 14 =
      2 ^ 14 * fl.code + (2 ^ 12 * k.code + (2 ^ 6 * t + f)) := by
    rw [Nat.lor_comm, Nat.mul_comm fl.code]
    exact (Nat.mul_add_lt_is_or (by omega) fl.code).symm
  rw [h1, h2, h3]
  ring

theorem Move.fromSq_make {f t : Nat} (k : MoveKind) (fl : MoveFlag)
    (hf : f < 64) (ht : t < 64) : (Move.make f t k fl).fromSq = f := by
  have hk := k.code_lt4
  have hfl := fl.code_lt8
  show (Move.make f t k fl).val &&& 63 = f
  rw [Move.make_val k fl hf ht, show (63 : Nat) = 2 ^ 6 - 1 from rfl,
    Nat.and_pow_two_sub_one_eq_mod]
  omega

theorem Move.toSq_make {f t : Nat} (k : MoveKind) (fl : MoveFlag)
    (hf : f < 64) (ht : t < 64) : (Move.make f t k fl).toSq = t := by
  have hk := k.code_lt4
  have hfl := fl.code_lt8
  show ((Move.make f t k fl).val >>> 6) &&& 63 = t
  rw [Move.make_val k fl hf ht, Nat.shiftRight_eq_div_pow,
    show (63 : Nat) = 2 ^ 6 - 1 from rfl, Nat.and_pow_two_sub_one_eq_mod]
  omega

theorem Move.kind_make {f t : Nat} (k : MoveKind) (fl : MoveFlag)
    (hf : f < 64) (ht : t < 64) : (Move.make f t k fl).kind = k := by
  have hk := k.code_lt4
  have hfl := fl.code_lt8
  show MoveKind.ofCode (((Move.make f t k fl).val >>> 12) &&& 3) = k
  rw [Move.make_val k fl hf ht, Nat.shiftRight_eq_div_pow,
    show (3 : Nat) = 2 ^ 2 - 1 from rfl, Nat.and_pow_two_sub_one_eq_mod]
  have : (f + 64 * t + 4096 * k.code + 16384 * fl.code) / 2 ^ 12 % 2 ^ 2 = k.code := by
    omega
  rw [this, MoveKind.ofCode_code4]

theorem Move.flag_make {f t : Nat} (k : MoveKind) (fl : MoveFlag)
    (hf : f < 64) (ht : t < 64) : (Move.make f t k fl).flag = fl := by
  have hk := k.code_lt4
  have hfl := fl.code_lt8
  show MoveFlag.ofCode (((Move.make f t k fl).val >>> 14) &&& 7) = fl
  rw [Move.make_val k fl hf ht, Nat.shiftRight_eq_div_pow,
    show (7 : Nat) = 2 ^ 3 - 1 from rfl, Nat.and_pow_two_sub_one_eq_mod]
  have : (f + 64 * t + 4096 * k.code + 16384 * fl.code) / 2 ^ 14 % 2 ^ 3 = fl.code := by
    omega
  rw [this, MoveFlag.ofCode_code8]

theorem Move.val_lt_make {f t : Nat} (k : MoveKind) (fl : MoveFlag)
    (hf : f < 64) (ht : t < 64) : (Move.make f t k fl).val < 2 ^ 17 := by
  have hk := k.code_lt4
  have hfl := fl.code_lt8
  rw [Move.make_val k fl hf ht]
  omega

/-!  Claim theorems: C10, C3, C8. -/

/-- C10: for every board state, `make_null_move` followed immediately by
`unmake_null_move` restores the board exactly — side to move, en-passant
square, halfmove clock, castling rights, Zobrist hash, history, and all
piece/occupancy bitboards and the mailbox equal their values before the
pair of calls. -/
theorem c10_null_move_round_trip (b : Board) :
    b.makeNullMove.unmakeNullMove = some b := by
  cases b with
  | mk wp wn wb wr wq wk bp bn bbp br bq bk pcs wo bo sd clk cr ep hist h =>
    cases sd <;> rfl

/-- C3: refuted — `ZobristHasher::index_piece` computes
`numbers[6·color + kind + square]`, omitting the `·64` the spec requires,
so distinct (piece, square) pairs collide: a white knight on a1 and a
white pawn on b1 both read entry 1 of the table, not the distinct spec
indices 64 and 1. (The code contradicts its own `SIDE_OFFSET = 768`
comment, which reserves `12 · 64` leading entries for pieces.) -/
theorem c3_piece_index_collision :
    indexPieceIdx ⟨.white, .knight⟩ 0 = 1 ∧
    indexPieceIdx ⟨.white, .pawn⟩ 1 = 1 ∧
    (6 * 0 + 1) * 64 + 0 = 64 ∧
    indexPieceIdx ⟨.white, .knight⟩ 0 ≠ (6 * 0 + 1) * 64 + 0 ∧
    getKeyPart (.piece ⟨.white, .knight⟩ 0) = getKeyPart (.piece ⟨.white, .pawn⟩ 1) := by
  exact ⟨rfl, rfl, rfl, by decide, rfl⟩

/-- C8: refuted — `SearchTimer::initialize` applies no floor at 0: with
0 ms remaining, no increment and the default 30 moves-to-go, the `u128`
expression `0 + 0 - 50` wraps to `2^128 - 50` (release builds; debug
builds panic), not 0. When the sum stays above the 50 ms margin the
computed duration does match `round(remaining/moves_to_go) + increment -
50` (e.g. 60000/30 + 1000 - 50 = 2950), and a missing remaining time
gives an infinite duration. -/
theorem c8_timer_underflow :
    searchTimerInit (some 0) 0 Option.none = .finite (2 ^ 128 - 50) ∧
    2 ^ 128 - 50 ≠ 0 ∧
    searchTimerInit (some 60000) 1000 Option.none = .finite 2950 ∧
    searchTimerInit Option.none 0 (some 17) = .infinite := by
  exact ⟨rfl, by decide, rfl, rfl⟩

/-!  Claim theorems: C2, C4. -/

set_option maxRecDepth 8000 in
/-- C2: refuted — the incrementally maintained hash diverges from the
full recomputation after a single `make_move` from a parsed FEN.
`make_move` XORs out the current en-passant key unconditionally but only
XORs a key back in when a new EP square is set, while `hash_position`
always XORs the 9th ("no EP") slot; after the generated, legal quiet
push e2e3 from the initial position the two values differ (by exactly
the no-EP key, `numbers[793]`). -/
theorem c2_incremental_hash_mismatch :
    (parseFen Board.default startposFEN).2 = Option.none ∧
    startBoard.hash = hashPosition startBoard ∧
    moveE2E3 ∈ generateAllMoves rookAttackRay bishopAttackRay startBoard ∧
    startBoard.makeMove moveE2E3 = Except.ok boardAfterE2E3 ∧
    boardAfterE2E3.hash ≠ hashPosition boardAfterE2E3 ∧
    boardAfterE2E3.hash ^^^ hashPosition boardAfterE2E3 = zobristNumbers.getD 793 0 := by
  refine ⟨rfl, rfl, by decide, rfl, by decide, rfl⟩

/-- C4 (counterexample): parsing the malformed FEN "junk" over the
populated initial position returns an error yet leaves the board
different from its prior state (it has been reset); and a 6-field FEN
whose en-passant field is the malformed "zz99" is *accepted* (no error),
contradicting "malformed en-passant field is a hard parse error". -/
theorem c4_counterexample :
    (parseFen startBoard "junk").2.isSome = true ∧
    (parseFen startBoard "junk").1 ≠ startBoard ∧
    (parseFen Board.default "8/8/8/8/8/8/8/8 w - zz99 0 1").2 = Option.none := by
  refine ⟨rfl, by decide, rfl⟩

/-!  Claim theorems: C7, C9. -/

/-- C7 (counterexample): the en-passant capture d5xc6, generated and not
equal to the (null) transposition-table move, is scored 0 by the
`score_moves` logic — it falls through to the killer/history branch
because its *target* square c6 is empty — instead of the MVV-LVA value
`CAPTURE_SCORE_OFFSET + 10·100 − 100 = 1900` the claim requires for
every capture including en passant. -/
theorem c7_ep_capture_not_mvv_lva :
    (parseFen Board.default epFEN).2 = Option.none ∧
    epCaptureMove ∈ generateAllMoves rookAttackRay bishopAttackRay epBoard ∧
    epCaptureMove.kind = .capture ∧
    epCaptureMove.flag = .enPassant ∧
    epCaptureMove.eqMasked Move.nullMove = false ∧
    moveOrderScore epBoard Move.nullMove Move.nullMove Move.nullMove zeroHistory
      emptyCounters Move.nullMove epCaptureMove = 0 ∧
    CAPTURE_SCORE_OFFSET + 10 * materialValue ⟨.black, .pawn⟩ -
      materialValue ⟨.white, .pawn⟩ = 1900 := by
  refine ⟨rfl, by decide, rfl, rfl, rfl, rfl, rfl⟩

/-- C7 (amended): every move that is not (score-masked) equal to the
transposition-table move and whose *destination square holds a piece* —
which among generated captures is every capture except en passant — is
scored `CAPTURE_SCORE_OFFSET + 10·victim − attacker`; a move with an
empty destination square (as every en-passant capture has) that misses
the TT move and both killers instead receives the history score plus the
counter-move bonus. -/
theorem c7_capture_scores (b : Board) (tt k0 k1 : Move) (hist : HistoryTable)
    (cnt : CounterTable) (prev mv : Move) :
    (mv.eqMasked tt = false → (b.getPiece mv.toSq).kind ≠ .noPiece →
      moveOrderScore b tt k0 k1 hist cnt prev mv =
        CAPTURE_SCORE_OFFSET + 10 * materialValue (b.getPiece mv.toSq) -
          materialValue (b.getPiece mv.fromSq)) ∧
    (mv.eqMasked tt = false → mv.eqMasked k0 = false → mv.eqMasked k1 = false →
      (b.getPiece mv.toSq).kind = .noPiece →
      moveOrderScore b tt k0 k1 hist cnt prev mv =
        (hist b.side mv.fromSq mv.toSq : Int) +
          (if (cnt b.side prev.fromSq prev.toSq).eqMasked mv then COUNTER_MOVE_BONUS
           else 0)) := by
  constructor
  · intro h1 h2
    simp [moveOrderScore, h1, h2]
  · intro h1 h2 h3 h4
    simp [moveOrderScore, h1, h2, h3, h4]

theorem c7_witness :
    (Move.make 41 49 .capture .noFlag).eqMasked Move.nullMove = false ∧
    (epBoard.getPiece (Move.make 41 49 .capture .noFlag).toSq).kind ≠ .noPiece ∧
    moveOrderScore epBoard Move.nullMove Move.nullMove Move.nullMove zeroHistory
      emptyCounters Move.nullMove (Move.make 41 49 .capture .noFlag) =
      CAPTURE_SCORE_OFFSET +
        10 * materialValue (epBoard.getPiece (Move.make 41 49 .capture .noFlag).toSq) -
        materialValue (epBoard.getPiece (Move.make 41 49 .capture .noFlag).fromSq) ∧
    moveOrderScore epBoard Move.nullMove Move.nullMove Move.nullMove zeroHistory
      emptyCounters Move.nullMove epCaptureMove =
      (zeroHistory epBoard.side epCaptureMove.fromSq epCaptureMove.toSq : Int) +
        (if (emptyCounters epBoard.side Move.nullMove.fromSq
              Move.nullMove.toSq).eqMasked epCaptureMove then COUNTER_MOVE_BONUS
         else 0) := by
  refine ⟨by decide, by decide, ?_, ?_⟩
  · exact (c7_capture_scores epBoard Move.nullMove Move.nullMove Move.nullMove zeroHistory
      emptyCounters Move.nullMove (Move.make 41 49 .capture .noFlag)).1
      (by decide) (by decide)
  · exact (c7_capture_scores epBoard Move.nullMove Move.nullMove Move.nullMove zeroHistory
      emptyCounters Move.nullMove epCaptureMove).2
      (by decide) (by decide) (by decide) (by decide)

theorem materialValue_nonneg (p : Piece) : 0 ≤ materialValue p := by
  cases p with
  | mk c k => cases k <;> simp [materialValue]

theorem materialValue_le (p : Piece) : materialValue p ≤ 900 := by
  cases p with
  | mk c k => cases k <;> simp [materialValue]

/-- C9 (amended): with history entries bounded by 4225 — an invariant
that holds for the zero-initialised table and is preserved by
`update_history_score` for every depth the search can pass (≤ 65, since
`max_depth = 64` plus at most the one in-check extension per level) —
every ordering score `score_moves` computes lies in `[0, 2^15]`, so the
two assertions never fire, and `set_score`/`score` round-trips losslessly
on any move whose packed value fits the 17 payload bits. The history
entries do *not* stay below the killer scores (see the counterexample):
a single post-overflow halving only bounds them by 4225. -/
theorem c9_score_bounds :
    (∀ (b : Board) (tt k0 k1 : Move) (hist : HistoryTable) (cnt : CounterTable)
        (prev mv : Move), HistBounded hist →
      0 ≤ moveOrderScore b tt k0 k1 hist cnt prev mv ∧
        moveOrderScore b tt k0 k1 hist cnt prev mv ≤ 2 ^ 15) ∧
    (∀ (hist : HistoryTable) (sd : Side) (mv : Move) (depth : Nat),
      depth ≤ 65 → HistBounded hist →
        HistBounded (updateHistoryScore hist sd mv depth)) ∧
    HistBounded zeroHistory ∧
    (∀ (m : Move) (s : Nat), m.val < 2 ^ 17 → s < 2 ^ 15 → (m.setScore s).score = s) := by
  refine ⟨?_, ?_, ?_, ?_⟩
  · intro b tt k0 k1 hist cnt prev mv hh
    have hv := materialValue_nonneg (b.getPiece mv.toSq)
    have hv' := materialValue_le (b.getPiece mv.toSq)
    have ha := materialValue_nonneg (b.getPiece mv.fromSq)
    have ha' := materialValue_le (b.getPiece mv.fromSq)
    have hb := hh b.side mv.fromSq mv.toSq
    simp only [moveOrderScore, TT_SCORE_OFFSET, CAPTURE_SCORE_OFFSET, FIRST_KILLER_SCORE,
      SECOND_KILLER_SCORE, COUNTER_MOVE_BONUS]
    split_ifs <;> constructor <;> omega
  · intro hist sd mv depth hd hh
    have hdd : depth * depth ≤ 4225 := by
      calc depth * depth ≤ 65 * 65 := Nat.mul_le_mul hd hd
        _ = 4225 := by norm_num
    have h996 : MAX_HISTORY_SCORE.toNat = 996 := by decide
    simp only [updateHistoryScore]
    by_cases hcap : mv.kind = .capture
    · rw [if_pos hcap]
      exact hh
    · rw [if_neg hcap]
      simp only [eq_self_iff_true, true_and, and_self, if_true]
      by_cases hover : hist sd mv.fromSq mv.toSq + depth * depth > MAX_HISTORY_SCORE.toNat
    
      · rw [if_pos hover]
        intro s f t
        have h1 := hh s f t
        beta_reduce
        split_ifs with hs hc hc
        · omega
        · omega
        · exact absurd hc.1 hs
        · exact h1
      · rw [if_neg hover]
        intro s f t
        have h1 := hh s f t
        rw [not_lt] at hover
        beta_reduce
        split_ifs with hc
        · obtain ⟨rfl, rfl, rfl⟩ := hc
          omega
        · exact h1
  · intro _ _ _
    exact Nat.zero_le _
  · intro m s hm hs
    have hlt : s <<< 17 < 2 ^ 32 := by
      rw [Nat.shiftLeft_eq]
      omega
    have hand : ∀ a b n : Nat, (a <<< n) &&& (b <<< n) = (a &&& b) <<< n := by
      intro a b n
      apply Nat.eq_of_testBit_eq
      intro j
      simp only [Nat.testBit_and, Nat.testBit_shiftLeft]
      by_cases h : n ≤ j <;> simp [h, Nat.testBit_and]
    have hzero : m.val &&& (2 ^ 15 - 1) <<< 17 = 0 := by
      apply Nat.eq_of_testBit_eq
      intro j
      simp only [Nat.testBit_and, Nat.testBit_shiftLeft, Nat.zero_testBit]
      rcases Nat.lt_or_ge j 17 with hj | hj
      · simp [Nat.not_le.mpr hj]
      · have : m.val.testBit j = false := by
          apply Nat.testBit_lt_two_pow
          calc m.val < 2 ^ 17 := hm
            _ ≤ 2 ^ j := Nat.pow_le_pow_right (by norm_num) hj
        simp [this]
    have hmask : (0xfffe0000 : Nat) = (2 ^ 15 - 1) <<< 17 := by decide
    show ((m.val ||| (s <<< 17 % 2 ^ 32 &&& 0xfffe0000)) &&& 0xfffe0000) >>> 17 = s
    rw [Nat.mod_eq_of_lt hlt, hmask, hand, Nat.and_pow_two_sub_one_of_lt_two_pow hs,
      Nat.and_distrib_right, hand, Nat.and_pow_two_sub_one_of_lt_two_pow hs, hzero,
      Nat.zero_or, Nat.shiftLeft_shiftRight]

/-- C9 (counterexample): from a history table satisfying the claimed
bound (every entry ≤ MAX_HISTORY_SCORE = 996), one quiet cutoff at depth
33 leaves `history[from][to] = (996 + 33²)/2 = 1042`, which exceeds both
killer scores (999 and 998) — the halving rule does not keep history
entries below the killer scores. -/
theorem c9_history_exceeds_killers :
    c9HistTable .white 0 1 = 996 ∧
    (∀ sd f t, (c9HistTable sd f t : Int) ≤ MAX_HISTORY_SCORE) ∧
    c9QuietMove.kind ≠ .capture ∧
    updateHistoryScore c9HistTable .white c9QuietMove 33 .white 0 1 = 1042 ∧
    SECOND_KILLER_SCORE = 998 ∧
    ¬ ((1042 : Int) ≤ SECOND_KILLER_SCORE) := by
  refine ⟨rfl, ?_, by decide, rfl, rfl, by decide⟩
  intro sd f t
  unfold c9HistTable
  split_ifs <;> decide

theorem c9_witness :
    HistBounded zeroHistory ∧
    (0 ≤ moveOrderScore startBoard Move.nullMove Move.nullMove Move.nullMove
        zeroHistory emptyCounters Move.nullMove moveE2E4 ∧
      moveOrderScore startBoard Move.nullMove Move.nullMove Move.nullMove
        zeroHistory emptyCounters Move.nullMove moveE2E4 ≤ 2 ^ 15) ∧
    HistBounded (updateHistoryScore zeroHistory .white moveE2E4 3) ∧
    ((Move.make 12 28 .quiet .noFlag).setScore 77).score = 77 := by
  refine ⟨fun _ _ _ => Nat.zero_le _, ?_, ?_, ?_⟩
  · exact c9_score_bounds.1 startBoard Move.nullMove Move.nullMove Move.nullMove
      zeroHistory emptyCounters Move.nullMove moveE2E4 (fun _ _ _ => Nat.zero_le _)
  · exact c9_score_bounds.2.1 zeroHistory .white moveE2E4 3 (by decide)
      (fun _ _ _ => Nat.zero_le _)
  · exact c9_score_bounds.2.2.2 (Move.make 12 28 .quiet .noFlag) 77 (by decide) (by decide)

/-!  Generator membership lemmas and C5. -/

theorem mem_bits64 {bb : Bitboard} {s : Square} :
    s ∈ bits64 bb ↔ s < 64 ∧ bb.testBit s = true := by
  simp [bits64, List.mem_filter, List.mem_range]

theorem mem_allPromotions {f t : Nat} {m : Move} (h : m ∈ allPromotions f t)
    (hf : f < 64) (ht : t < 64) :
    m.kind = .promotion ∧ m.fromSq = f ∧ m.toSq = t ∧ promoFlagOk m.flag := by
  simp only [allPromotions, List.mem_cons, List.not_mem_nil, or_false] at h
  rcases h with rfl | rfl | rfl | rfl <;>
    exact ⟨Move.kind_make _ _ hf ht, Move.fromSq_make _ _ hf ht, Move.toSq_make _ _ hf ht,
      by rw [Move.flag_make _ _ hf ht]; unfold promoFlagOk; tauto⟩

theorem kind_mem_targets {f : Square} {own enemy atts : Bitboard} {m : Move}
    (hf : f < 64)
    (h : m ∈ (bits64 (atts &&& not64 own)).map (fun toSq =>
      Move.make f toSq (if squareBB toSq &&& enemy ≠ 0 then .capture else .quiet) .noFlag)) :
    m.kind = .capture ∨ m.kind = .quiet := by
  rw [List.mem_map] at h
  obtain ⟨t, ht, rfl⟩ := h
  have ht64 := (mem_bits64.mp ht).1
  rw [Move.kind_make _ _ hf ht64]
  split <;> simp

theorem not_castle_mem_pawnMoves {b : Board} {m : Move}
    (h : m ∈ generatePawnMoves b) : m.kind ≠ .castle := by
  simp only [generatePawnMoves, List.mem_flatMap] at h
  obtain ⟨f, hf, hm⟩ := h
  have hf64 : f < 64 := (mem_bits64.mp hf).1
  rcases List.mem_append.mp hm with hm' | hmatt
  · rcases List.mem_append.mp hm' with hmp | hmd
    · rw [List.mem_flatMap] at hmp
      obtain ⟨t, ht, hmt⟩ := hmp
      have ht64 : t < 64 := (mem_bits64.mp (List.take_subset _ _ ht)).1
      revert hmt
      split
      · intro hmt
        rw [(mem_allPromotions hmt hf64 ht64).1]
        simp
      · intro hmt
        simp only [List.mem_singleton] at hmt
        subst hmt
        rw [Move.kind_make _ _ hf64 ht64]
        simp
    · rw [List.mem_map] at hmd
      obtain ⟨t, ht, rfl⟩ := hmd
      have ht64 : t < 64 := (mem_bits64.mp (List.take_subset _ _ ht)).1
      rw [Move.kind_make _ _ hf64 ht64]
      simp
  · rw [List.mem_flatMap] at hmatt
    obtain ⟨t, ht, hmt⟩ := hmatt
    have ht64 : t < 64 := (mem_bits64.mp ht).1
    revert hmt
    split
    · intro hmt
      rw [(mem_allPromotions hmt hf64 ht64).1]
      simp
    · intro hmt
      simp only [List.mem_singleton] at hmt
      subst hmt
      rw [Move.kind_make _ _ hf64 ht64]
      simp

theorem not_castle_mem_kingMoves {b : Board} {m : Move}
    (h : m ∈ generateKingMoves b) : m.kind ≠ .castle := by
  simp only [generateKingMoves, List.mem_flatMap] at h
  obtain ⟨f, hf, hm⟩ := h
  have hf64 : f < 64 := (mem_bits64.mp (List.take_subset _ _ hf)).1
  rcases kind_mem_targets hf64 hm with h' | h' <;> simp [h']

theorem not_castle_mem_knightMoves {b : Board} {m : Move}
    (h : m ∈ generateKnightMoves b) : m.kind ≠ .castle := by
  simp only [generateKnightMoves, List.mem_flatMap] at h
  obtain ⟨f, hf, hm⟩ := h
  have hf64 : f < 64 := (mem_bits64.mp hf).1
  rcases kind_mem_targets hf64 hm with h' | h' <;> simp [h']

theorem not_castle_mem_rookMoves {rA : AttackFn} {b : Board} {m : Move}
    (h : m ∈ generateRookMoves rA b) : m.kind ≠ .castle := by
  simp only [generateRookMoves, List.mem_flatMap] at h
  obtain ⟨f, hf, hm⟩ := h
  have hf64 : f < 64 := (mem_bits64.mp hf).1
  rcases kind_mem_targets hf64 hm with h' | h' <;> simp [h']

theorem not_castle_mem_bishopMoves {bA : AttackFn} {b : Board} {m : Move}
    (h : m ∈ generateBishopMoves bA b) : m.kind ≠ .castle := by
  simp only [generateBishopMoves, List.mem_flatMap] at h
  obtain ⟨f, hf, hm⟩ := h
  have hf64 : f < 64 := (mem_bits64.mp hf).1
  rcases kind_mem_targets hf64 hm with h' | h' <;> simp [h']

theorem not_castle_mem_queenMoves {rA bA : AttackFn} {b : Board} {m : Move}
    (h : m ∈ generateQueenMoves rA bA b) : m.kind ≠ .castle := by
  simp only [generateQueenMoves, List.mem_flatMap] at h
  obtain ⟨f, hf, hm⟩ := h
  have hf64 : f < 64 := (mem_bits64.mp hf).1
  rcases kind_mem_targets hf64 hm with h' | h' <;> simp [h']

theorem mem_ite_singleton {α : Type} {p : Prop} [Decidable p] {x y : α} :
    (x ∈ if p then [y] else []) ↔ p ∧ x = y := by
  split <;> simp_all

/-- C5: for the side to move with a castling right still held,
`generate_all_moves` emits the castle move if and only if the
intermediate squares are empty (F1/G1 for white kingside; D1/C1/B1 for
white queenside; mirrored for Black) and neither the king's squares E1
nor the pass-through square F1 (resp. D1, mirrored) is attacked; the
attack predicate is an arbitrary parameter, so the destination square's
attackedness (G1/C1/G8/C8) is provably never consulted during
generation. Castle-kind moves in `generate_all_moves` come from the
castling generator alone. -/
theorem c5_castling_generation (att : Board → Square → Side → Bool) (b : Board) :
    (Move.make 4 6 .castle .noFlag ∈ generateCastlingMoves att b ↔
      b.side = .white ∧ b.canCastle whiteKingCastle = true ∧
      isOccupied (b.occupancy .white ||| b.occupancy .black) 5 = false ∧
      isOccupied (b.occupancy .white ||| b.occupancy .black) 6 = false ∧
      att b 4 .black = false ∧ att b 5 .black = false) ∧
    (Move.make 4 2 .castle .noFlag ∈ generateCastlingMoves att b ↔
      b.side = .white ∧ b.canCastle whiteQueenCastle = true ∧
      isOccupied (b.occupancy .white ||| b.occupancy .black) 3 = false ∧
      isOccupied (b.occupancy .white ||| b.occupancy .black) 2 = false ∧
      isOccupied (b.occupancy .white ||| b.occupancy .black) 1 = false ∧
      att b 4 .black = false ∧ att b 3 .black = false) ∧
    (Move.make 60 62 .castle .noFlag ∈ generateCastlingMoves att b ↔
      b.side = .black ∧ b.canCastle blackKingCastle = true ∧
      isOccupied (b.occupancy .white ||| b.occupancy .black) 61 = false ∧
      isOccupied (b.occupancy .white ||| b.occupancy .black) 62 = false ∧
      att b 60 .white = false ∧ att b 61 .white = false) ∧
    (Move.make 60 58 .castle .noFlag ∈ generateCastlingMoves att b ↔
      b.side = .black ∧ b.canCastle blackQueenCastle = true ∧
      isOccupied (b.occupancy .white ||| b.occupancy .black) 59 = false ∧
      isOccupied (b.occupancy .white ||| b.occupancy .black) 58 = false ∧
      isOccupied (b.occupancy .white ||| b.occupancy .black) 57 = false ∧
      att b 60 .white = false ∧ att b 59 .white = false) ∧
    (∀ (rA bA : AttackFn) (m : Move), m.kind = .castle →
      (m ∈ generateAllMoves rA bA b ↔
        m ∈ generateCastlingMoves (isSquareAttacked rA bA) b)) := by
  refine ⟨?_, ?_, ?_, ?_, ?_⟩
  · cases hs : b.side <;>
      simp [generateCastlingMoves, hs, List.mem_append, mem_ite_singleton,
        Bool.and_eq_true, Bool.not_eq_true', Move.mk.injEq, Move.make, and_assoc,
        MoveKind.code, MoveFlag.code]
  · cases hs : b.side <;>
      simp [generateCastlingMoves, hs, List.mem_append, mem_ite_singleton,
        Bool.and_eq_true, Bool.not_eq_true', Move.mk.injEq, Move.make, and_assoc,
        MoveKind.code, MoveFlag.code]
  · cases hs : b.side <;>
      simp [generateCastlingMoves, hs, List.mem_append, mem_ite_singleton,
        Bool.and_eq_true, Bool.not_eq_true', Move.mk.injEq, Move.make, and_assoc,
        MoveKind.code, MoveFlag.code]
  · cases hs : b.side <;>
      simp [generateCastlingMoves, hs, List.mem_append, mem_ite_singleton,
        Bool.and_eq_true, Bool.not_eq_true', Move.mk.injEq, Move.make, and_assoc,
        MoveKind.code, MoveFlag.code]
  · intro rA bA m hk
    constructor
    · intro h
      simp only [generateAllMoves, List.mem_append] at h
      rcases h with ((((((h | h) | h) | h) | h) | h) | h)
      · exact absurd hk (not_castle_mem_pawnMoves h)
      · exact absurd hk (not_castle_mem_kingMoves h)
      · exact h
      · exact absurd hk (not_castle_mem_knightMoves h)
      · exact absurd hk (not_castle_mem_bishopMoves h)
      · exact absurd hk (not_castle_mem_rookMoves h)
      · exact absurd hk (not_castle_mem_queenMoves h)
    · intro h
      simp only [generateAllMoves, List.mem_append]
      tauto

theorem c5_witness :
    (Move.make 4 6 .castle .noFlag ∈
      generateCastlingMoves (isSquareAttacked rookAttackRay bishopAttackRay) castleBoard) ∧
    (Move.make 4 2 .castle .noFlag ∈
      generateCastlingMoves (isSquareAttacked rookAttackRay bishopAttackRay) castleBoard) ∧
    ¬ (Move.make 4 6 .castle .noFlag ∈
      generateCastlingMoves (isSquareAttacked rookAttackRay bishopAttackRay)
        castleAttackedBoard) ∧
    (Move.make 4 6 .castle .noFlag ∈
      generateAllMoves rookAttackRay bishopAttackRay castleBoard) := by
  refine ⟨?_, ?_, ?_, ?_⟩
  · exact (c5_castling_generation (isSquareAttacked rookAttackRay bishopAttackRay)
      castleBoard).1.mpr (by decide)
  · exact (c5_castling_generation (isSquareAttacked rookAttackRay bishopAttackRay)
      castleBoard).2.1.mpr (by decide)
  · intro h
    have := (c5_castling_generation (isSquareAttacked rookAttackRay bishopAttackRay)
      castleAttackedBoard).1.mp h
    revert this
    decide
  · exact ((c5_castling_generation (isSquareAttacked rookAttackRay bishopAttackRay)
      castleBoard).2.2.2.2 rookAttackRay bishopAttackRay _ (by decide)).mpr
      ((c5_castling_generation (isSquareAttacked rookAttackRay bishopAttackRay)
        castleBoard).1.mpr (by decide))

/-!  Bit-level lemmas for the 64-bit board operations. -/

theorem testBit_squareBB (s t : Nat) : (squareBB s).testBit t = decide (t = s) := by
  rw [squareBB, Nat.shiftLeft_eq, Nat.one_mul]
  rcases eq_or_ne s t with rfl | h
  · simp [Nat.testBit_two_pow_self]
  · simp [Nat.testBit_two_pow_of_ne h, Ne.symm h]

theorem testBit_not64 {x : Nat} (t : Nat) (ht : t < 64) :
    (not64 x).testBit t = !x.testBit t := by
  rw [not64, Nat.testBit_xor, Nat.testBit_two_pow_sub_one]
  simp [ht]

theorem testBit_setBit (bb s t : Nat) :
    (setBit bb s).testBit t = (bb.testBit t || decide (t = s)) := by
  rw [setBit, Nat.testBit_or, testBit_squareBB]

theorem testBit_clearBit (bb s : Nat) {t : Nat} (ht : t < 64) :
    (clearBit bb s).testBit t = (bb.testBit t && !decide (t = s)) := by
  rw [clearBit, Nat.testBit_and, testBit_not64 t ht, testBit_squareBB]

theorem testBit_false_of_lt {x t : Nat} (hx : x < U64) (ht : 64 ≤ t) :
    x.testBit t = false :=
  Nat.testBit_lt_two_pow (lt_of_lt_of_le hx (Nat.pow_le_pow_right (by norm_num) ht))

theorem eq_of_testBit_eq_64 {x y : Nat} (hx : x < U64) (hy : y < U64)
    (h : ∀ t, t < 64 → x.testBit t = y.testBit t) : x = y := by
  apply Nat.eq_of_testBit_eq
  intro t
  rcases Nat.lt_or_ge t 64 with ht | ht
  · exact h t ht
  · rw [testBit_false_of_lt hx ht, testBit_false_of_lt hy ht]

theorem setBit_lt {bb : Nat} {s : Nat} (hb : bb < U64) (hs : s < 64) :
    setBit bb s < U64 := by
  apply Nat.or_lt_two_pow hb
  rw [squareBB, Nat.shiftLeft_eq, Nat.one_mul]
  exact Nat.pow_lt_pow_right (by norm_num) hs

theorem clearBit_lt {bb : Nat} (s : Nat) (hb : bb < U64) : clearBit bb s < U64 :=
  lt_of_le_of_lt (Nat.and_le_left) hb

theorem and_ne_zero_iff_testBit {x : Nat} {t : Nat} :
    squareBB t &&& x ≠ 0 ↔ x.testBit t = true := by
  constructor
  · intro h
    by_contra hbit
    apply h
    apply Nat.eq_of_testBit_eq
    intro i
    rw [Nat.testBit_and, testBit_squareBB, Nat.zero_testBit]
    rcases eq_or_ne i t with rfl | hne
    · simp [Bool.eq_false_iff.mpr hbit]
    · simp [hne]
  · intro hbit h0
    have := congrArg (fun z => z.testBit t) h0
    simp [Nat.testBit_and, testBit_squareBB, hbit] at this

/-!  Consistency lemmas: reading the mailbox through the bitboards. -/

theorem getPiece_of_bbOf {b : Board} (hc : BoardConsistent b) {s : Nat} (hs : s < 64)
    {sd : Side} {k : PieceKind} (hk : k ≠ .noPiece)
    (hbit : (b.pieceBbOf sd k).testBit s = true) : b.getPiece s = ⟨sd.toColor, k⟩ := by
  obtain ⟨-, -, -, -, -, -, -, -, -, -, -, -, -, -, -, -, hbb, -, -⟩ := hc
  exact (hbb s hs sd k hk).mp hbit

theorem bbOf_testBit_of_getPiece {b : Board} (hc : BoardConsistent b) {s : Nat} (hs : s < 64)
    {sd : Side} {k : PieceKind} (hk : k ≠ .noPiece)
    (hp : b.getPiece s = ⟨sd.toColor, k⟩) : (b.pieceBbOf sd k).testBit s = true := by
  obtain ⟨-, -, -, -, -, -, -, -, -, -, -, -, -, -, -, -, hbb, -, -⟩ := hc
  exact (hbb s hs sd k hk).mpr hp

theorem bbOf_testBit_false {b : Board} (hc : BoardConsistent b) {s : Nat} (hs : s < 64)
    {sd : Side} {k : PieceKind} (hk : k ≠ .noPiece)
    (hp : b.getPiece s ≠ ⟨sd.toColor, k⟩) : (b.pieceBbOf sd k).testBit s = false := by
  obtain ⟨-, -, -, -, -, -, -, -, -, -, -, -, -, -, -, -, hbb, -, -⟩ := hc
  rcases hbit : (b.pieceBbOf sd k).testBit s with _ | _
  · rfl
  · exact absurd ((hbb s hs sd k hk).mp hbit) hp

theorem occ_testBit_iff {b : Board} (hc : BoardConsistent b) {s : Nat} (hs : s < 64)
    (sd : Side) : ((b.occupancy sd).testBit s = true ↔ (b.getPiece s).color = sd.toColor) := by
  obtain ⟨-, -, -, -, -, -, -, -, -, -, -, -, -, -, -, -, -, hwo, hbo⟩ := hc
  cases sd
  · exact hwo s hs
  · exact hbo s hs

theorem getPiece_empty_of_unocc {b : Board} (hc : BoardConsistent b) {s : Nat} (hs : s < 64)
    (hw : (b.occupancy .white).testBit s = false)
    (hb : (b.occupancy .black).testBit s = false) : b.getPiece s = Piece.empty := by
  have hvalid := hc.2.2.2.2.2.2.2.2.2.2.2.2.2.2.2.1
  rcases hvalid s hs with h | h
  · exact h
  · obtain ⟨hcol, -⟩ := h
    rcases hcol with hcol | hcol
    · rw [← Bool.not_eq_true] at hw
      exact absurd ((occ_testBit_iff hc hs .white).mpr (by rw [hcol]; rfl)) hw
    · rw [← Bool.not_eq_true] at hb
      exact absurd ((occ_testBit_iff hc hs .black).mpr (by rw [hcol]; rfl)) hb

/-!  Peeling `Except` binds. -/

theorem except_bind_ok {α β : Type} {x : Except String α} {f : α → Except String β} {y : β}
    (h : x >>= f = Except.ok y) : ∃ a, x = Except.ok a ∧ f a = Except.ok y := by
  cases x with
  | error e => simp [Bind.bind, Except.bind] at h
  | ok a => exact ⟨a, rfl, by simpa [Bind.bind, Except.bind] using h⟩

/-!  Characterizations of `add_piece` / `remove_piece` and their hashing
variants: what a successful call returns, field by field. -/

theorem removePiece_spec {b : Board} {s : Square} {p : Piece} {b1 : Board}
    (h : b.removePiece s = Except.ok (p, b1)) :
    p = b.getPiece s ∧ validPiece p ∧
    b1.pieces = b.pieces.set s Piece.empty ∧
    (∀ sd k, k ≠ PieceKind.noPiece →
      b1.pieceBbOf sd k =
        if (⟨sd.toColor, k⟩ : Piece) = p then clearBit (b.pieceBbOf sd k) s
        else b.pieceBbOf sd k) ∧
    (∀ sd : Side, b1.occupancy sd =
        if sd.toColor = p.color then clearBit (b.occupancy sd) s else b.occupancy sd) ∧
    b1.side = b.side ∧ b1.enPassantSquare = b.enPassantSquare ∧
    b1.halfmoveClock = b.halfmoveClock ∧ b1.castlingRights = b.castlingRights ∧
    b1.history = b.history ∧ b1.hash = b.hash := by
  rcases hv : b.getPiece s with ⟨pc, pk⟩
  cases pc <;> cases pk <;>
      simp only [Board.removePiece, hv, Board.getPieceBb, Board.setPieceBb, sideOfColor,
        Board.setOccupancy, Board.occupancy, Bind.bind, Except.bind, pure, Except.pure,
        reduceCtorEq, Except.ok.injEq, Prod.mk.injEq, reduceIte] at h <;>
    · obtain ⟨hp, hb⟩ := h
      subst hb
      subst hp
      refine ⟨rfl, by constructor <;> simp, rfl, ?_, ?_, rfl, rfl, rfl, rfl, rfl, rfl⟩
      · intro sd k hk
        cases sd <;> cases k <;> simp_all [Board.pieceBbOf, Side.toColor]
      · intro sd
        cases sd <;> simp [Board.occupancy, Side.toColor]

theorem addPiece_spec {b : Board} {p : Piece} {s : Square} {b1 : Board}
    (h : b.addPiece p s = Except.ok b1) :
    validPiece p ∧
    b1.pieces = b.pieces.set s p ∧
    (∀ sd k, k ≠ PieceKind.noPiece →
      b1.pieceBbOf sd k =
        if (⟨sd.toColor, k⟩ : Piece) = p then setBit (b.pieceBbOf sd k) s
        else b.pieceBbOf sd k) ∧
    (∀ sd : Side, b1.occupancy sd =
        if sd.toColor = p.color then setBit (b.occupancy sd) s else b.occupancy sd) ∧
    b1.side = b.side ∧ b1.enPassantSquare = b.enPassantSquare ∧
    b1.halfmoveClock = b.halfmoveClock ∧ b1.castlingRights = b.castlingRights ∧
    b1.history = b.history ∧ b1.hash = b.hash := by
  obtain ⟨pc, pk⟩ := p
  cases pc <;> cases pk <;>
      simp only [Board.addPiece, Board.getPieceBb, Board.setPieceBb, sideOfColor,
        Board.setOccupancy, Board.occupancy, Bind.bind, Except.bind, pure, Except.pure,
        reduceCtorEq, Except.ok.injEq] at h <;>
    · subst h
      refine ⟨by constructor <;> simp, rfl, ?_, ?_, rfl, rfl, rfl, rfl, rfl, rfl⟩
      · intro sd k hk
        cases sd <;> cases k <;> simp_all [Board.pieceBbOf, Side.toColor]
      · intro sd
        cases sd <;> simp [Board.occupancy, Side.toColor]

theorem addPiece_ok (b : Board) {p : Piece} (s : Square) (hv : validPiece p) :
    ∃ b1, b.addPiece p s = Except.ok b1 := by
  obtain ⟨pc, pk⟩ := p
  obtain ⟨hcol, hk⟩ := hv
  simp only at hcol hk
  rcases hcol with rfl | rfl <;> cases pk <;>
    first
      | exact absurd rfl hk
      | exact ⟨_, rfl⟩

theorem removePiece_ok (b : Board) {s : Square} (hv : validPiece (b.getPiece s)) :
    ∃ pb, b.removePiece s = Except.ok pb := by
  obtain ⟨hcol, hk⟩ := hv
  rcases hgp : b.getPiece s with ⟨pc, pk⟩
  rw [hgp] at hcol hk
  simp only at hcol hk
  simp only [Board.removePiece, hgp]
  rcases hcol with rfl | rfl <;> cases pk <;>
    first
      | exact absurd rfl hk
      | exact ⟨_, rfl⟩

theorem updateHash_pieces (b : Board) (key : ZobristKey) :
    (b.updateHash key).pieces = b.pieces := rfl

theorem updateHash_side (b : Board) (key : ZobristKey) :
    (b.updateHash key).side = b.side := rfl

theorem updateHash_ep (b : Board) (key : ZobristKey) :
    (b.updateHash key).enPassantSquare = b.enPassantSquare := rfl

theorem updateHash_clock (b : Board) (key : ZobristKey) :
    (b.updateHash key).halfmoveClock = b.halfmoveClock := rfl

theorem updateHash_rights (b : Board) (key : ZobristKey) :
    (b.updateHash key).castlingRights = b.castlingRights := rfl

theorem updateHash_history (b : Board) (key : ZobristKey) :
    (b.updateHash key).history = b.history := rfl

theorem updateHash_hash (b : Board) (key : ZobristKey) :
    (b.updateHash key).hash = b.hash ^^^ getKeyPart key := rfl

theorem updateHash_occupancy (b : Board) (key : ZobristKey) (sd : Side) :
    (b.updateHash key).occupancy sd = b.occupancy sd := by cases sd <;> rfl

theorem updateHash_pieceBbOf (b : Board) (key : ZobristKey) (sd : Side) (k : PieceKind) :
    (b.updateHash key).pieceBbOf sd k = b.pieceBbOf sd k := by
  cases sd <;> cases k <;> rfl

theorem updateHash_getPiece (b : Board) (key : ZobristKey) (s : Square) :
    (b.updateHash key).getPiece s = b.getPiece s := rfl

theorem removePieceAndHash_spec {b : Board} {s : Square} {p : Piece} {b1 : Board}
    (h : b.removePieceAndHash s = Except.ok (p, b1)) :
    p = b.getPiece s ∧ validPiece p ∧
    b1.pieces = b.pieces.set s Piece.empty ∧
    (∀ sd k, k ≠ PieceKind.noPiece →
      b1.pieceBbOf sd k =
        if (⟨sd.toColor, k⟩ : Piece) = p then clearBit (b.pieceBbOf sd k) s
        else b.pieceBbOf sd k) ∧
    (∀ sd : Side, b1.occupancy sd =
        if sd.toColor = p.color then clearBit (b.occupancy sd) s else b.occupancy sd) ∧
    b1.side = b.side ∧ b1.enPassantSquare = b.enPassantSquare ∧
    b1.halfmoveClock = b.halfmoveClock ∧ b1.castlingRights = b.castlingRights ∧
    b1.history = b.history ∧ b1.hash = b.hash ^^^ getKeyPart (.piece p s) := by
  rw [Board.removePieceAndHash] at h
  obtain ⟨⟨p0, b0⟩, hrm, h⟩ := except_bind_ok h
  simp only [pure, Except.pure, Except.ok.injEq, Prod.mk.injEq] at h
  obtain ⟨hp, hb⟩ := h
  subst hp
  subst hb
  obtain ⟨h1, h2, h3, h4, h5, h6, h7, h8, h9, h10, h11⟩ := removePiece_spec hrm
  refine ⟨h1, h2, by rw [updateHash_pieces, h3], ?_, ?_,
    by rw [updateHash_side, h6], by rw [updateHash_ep, h7],
    by rw [updateHash_clock, h8], by rw [updateHash_rights, h9],
    by rw [updateHash_history, h10], by rw [updateHash_hash, h11]⟩
  · intro sd k hk
    rw [updateHash_pieceBbOf, h4 sd k hk]
  · intro sd
    rw [updateHash_occupancy, h5 sd]

theorem addPieceAndHash_spec {b : Board} {p : Piece} {s : Square} {b1 : Board}
    (h : b.addPieceAndHash p s = Except.ok b1) :
    validPiece p ∧
    b1.pieces = b.pieces.set s p ∧
    (∀ sd k, k ≠ PieceKind.noPiece →
      b1.pieceBbOf sd k =
        if (⟨sd.toColor, k⟩ : Piece) = p then setBit (b.pieceBbOf sd k) s
        else b.pieceBbOf sd k) ∧
    (∀ sd : Side, b1.occupancy sd =
        if sd.toColor = p.color then setBit (b.occupancy sd) s else b.occupancy sd) ∧
    b1.side = b.side ∧ b1.enPassantSquare = b.enPassantSquare ∧
    b1.halfmoveClock = b.halfmoveClock ∧ b1.castlingRights = b.castlingRights ∧
    b1.history = b.history ∧ b1.hash = b.hash ^^^ getKeyPart (.piece p s) := by
  rw [Board.addPieceAndHash] at h
  obtain ⟨b0, hadd, h⟩ := except_bind_ok h
  simp only [pure, Except.pure, Except.ok.injEq] at h
  subst h
  obtain ⟨h1, h2, h3, h4, h5, h6, h7, h8, h9, h10⟩ := addPiece_spec hadd
  refine ⟨h1, by rw [updateHash_pieces, h2], ?_, ?_,
    by rw [updateHash_side, h5], by rw [updateHash_ep, h6],
    by rw [updateHash_clock, h7], by rw [updateHash_rights, h8],
    by rw [updateHash_history, h9], by rw [updateHash_hash, h10]⟩
  · intro sd k hk
    rw [updateHash_pieceBbOf, h3 sd k hk]
  · intro sd
    rw [updateHash_occupancy, h4 sd]

theorem addPieceAndHash_ok (b : Board) {p : Piece} (s : Square) (hv : validPiece p) :
    ∃ b1, b.addPieceAndHash p s = Except.ok b1 := by
  obtain ⟨b1, h⟩ := addPiece_ok b s hv
  exact ⟨_, by rw [Board.addPieceAndHash, h]; rfl⟩

theorem removePieceAndHash_ok (b : Board) {s : Square} (hv : validPiece (b.getPiece s)) :
    ∃ pb, b.removePieceAndHash s = Except.ok pb := by
  obtain ⟨⟨p, b1⟩, h⟩ := removePiece_ok b hv
  exact ⟨_, by rw [Board.removePieceAndHash, h]; rfl⟩


theorem hashEnPassant_hash (b : Board) :
    b.hashEnPassant.hash = b.hash ^^^ getKeyPart (.epFile b.enPassantSquare) := rfl
theorem hashCastling_hash (b : Board) :
    b.hashCastling.hash = b.hash ^^^ getKeyPart (.castling b.castlingRights) := rfl
theorem switchSideAndHash_hash (b : Board) :
    b.switchSideAndHash.hash = b.hash ^^^ getKeyPart .sideKey := rfl


theorem bind_ok_eq {α β : Type} (a : α) (f : α → Except String β) :
    (Except.ok a >>= f : Except String β) = f a := rfl

theorem pure_bind_eq {α β : Type} (a : α) (f : α → Except String β) :
    (pure a >>= f : Except String β) = f a := rfl


/-!  Frame lemmas: the hash/side bookkeeping steps of `make_move` and
`unmake_move` change only the `hash` (and `side`) fields. -/

theorem hashEnPassant_whitePawns (b : Board) : (b.hashEnPassant).whitePawns = b.whitePawns := rfl

theorem hashEnPassant_whiteKnights (b : Board) : (b.hashEnPassant).whiteKnights = b.whiteKnights := rfl

theorem hashEnPassant_whiteBishops (b : Board) : (b.hashEnPassant).whiteBishops = b.whiteBishops := rfl

theorem hashEnPassant_whiteRooks (b : Board) : (b.hashEnPassant).whiteRooks = b.whiteRooks := rfl

theorem hashEnPassant_whiteQueens (b : Board) : (b.hashEnPassant).whiteQueens = b.whiteQueens := rfl

theorem hashEnPassant_whiteKing (b : Board) : (b.hashEnPassant).whiteKing = b.whiteKing := rfl

theorem hashEnPassant_blackPawns (b : Board) : (b.hashEnPassant).blackPawns = b.blackPawns := rfl

theorem hashEnPassant_blackKnights (b : Board) : (b.hashEnPassant).blackKnights = b.blackKnights := rfl

theorem hashEnPassant_blackBishops (b : Board) : (b.hashEnPassant).blackBishops = b.blackBishops := rfl

theorem hashEnPassant_blackRooks (b : Board) : (b.hashEnPassant).blackRooks = b.blackRooks := rfl

theorem hashEnPassant_blackQueens (b : Board) : (b.hashEnPassant).blackQueens = b.blackQueens := rfl

theorem hashEnPassant_blackKing (b : Board) : (b.hashEnPassant).blackKing = b.blackKing := rfl

theorem hashEnPassant_pieces (b : Board) : (b.hashEnPassant).pieces = b.pieces := rfl

theorem hashEnPassant_whiteOccupancies (b : Board) : (b.hashEnPassant).whiteOccupancies = b.whiteOccupancies := rfl

theorem hashEnPassant_blackOccupancies (b : Board) : (b.hashEnPassant).blackOccupancies = b.blackOccupancies := rfl

theorem hashEnPassant_halfmoveClock (b : Board) : (b.hashEnPassant).halfmoveClock = b.halfmoveClock := rfl

theorem hashEnPassant_castlingRights (b : Board) : (b.hashEnPassant).castlingRights = b.castlingRights := rfl

theorem hashEnPassant_enPassantSquare (b : Board) : (b.hashEnPassant).enPassantSquare = b.enPassantSquare := rfl

theorem hashEnPassant_history (b : Board) : (b.hashEnPassant).history = b.history := rfl

theorem hashEnPassant_side (b : Board) : (b.hashEnPassant).side = b.side := rfl

theorem hashEnPassant_getPiece (b : Board) (s : Square) : (b.hashEnPassant).getPiece s = b.getPiece s := rfl

theorem hashEnPassant_pieceBbOf (b : Board) (sd : Side) (k : PieceKind) :
    (b.hashEnPassant).pieceBbOf sd k = b.pieceBbOf sd k := by cases sd <;> cases k <;> rfl

theorem hashEnPassant_occupancy (b : Board) (sd : Side) :
    (b.hashEnPassant).occupancy sd = b.occupancy sd := by cases sd <;> rfl



theorem hashCastling_whitePawns (b : Board) : (b.hashCastling).whitePawns = b.whitePawns := rfl

theorem hashCastling_whiteKnights (b : Board) : (b.hashCastling).whiteKnights = b.whiteKnights := rfl

theorem hashCastling_whiteBishops (b : Board) : (b.hashCastling).whiteBishops = b.whiteBishops := rfl

theorem hashCastling_whiteRooks (b : Board) : (b.hashCastling).whiteRooks = b.whiteRooks := rfl

theorem hashCastling_whiteQueens (b : Board) : (b.hashCastling).whiteQueens = b.whiteQueens := rfl

theorem hashCastling_whiteKing (b : Board) : (b.hashCastling).whiteKing = b.whiteKing := rfl

theorem hashCastling_blackPawns (b : Board) : (b.hashCastling).blackPawns = b.blackPawns := rfl

theorem hashCastling_blackKnights (b : Board) : (b.hashCastling).blackKnights = b.blackKnights := rfl

theorem hashCastling_blackBishops (b : Board) : (b.hashCastling).blackBishops = b.blackBishops := rfl

theorem hashCastling_blackRooks (b : Board) : (b.hashCastling).blackRooks = b.blackRooks := rfl

theorem hashCastling_blackQueens (b : Board) : (b.hashCastling).blackQueens = b.blackQueens := rfl

theorem hashCastling_blackKing (b : Board) : (b.hashCastling).blackKing = b.blackKing := rfl

theorem hashCastling_pieces (b : Board) : (b.hashCastling).pieces = b.pieces := rfl

theorem hashCastling_whiteOccupancies (b : Board) : (b.hashCastling).whiteOccupancies = b.whiteOccupancies := rfl

theorem hashCastling_blackOccupancies (b : Board) : (b.hashCastling).blackOccupancies = b.blackOccupancies := rfl

theorem hashCastling_halfmoveClock (b : Board) : (b.hashCastling).halfmoveClock = b.halfmoveClock := rfl

theorem hashCastling_castlingRights (b : Board) : (b.hashCastling).castlingRights = b.castlingRights := rfl

theorem hashCastling_enPassantSquare (b : Board) : (b.hashCastling).enPassantSquare = b.enPassantSquare := rfl

theorem hashCastling_history (b : Board) : (b.hashCastling).history = b.history := rfl

theorem hashCastling_side (b : Board) : (b.hashCastling).side = b.side := rfl

theorem hashCastling_getPiece (b : Board) (s : Square) : (b.hashCastling).getPiece s = b.getPiece s := rfl

theorem hashCastling_pieceBbOf (b : Board) (sd : Side) (k : PieceKind) :
    (b.hashCastling).pieceBbOf sd k = b.pieceBbOf sd k := by cases sd <;> cases k <;> rfl

theorem hashCastling_occupancy (b : Board) (sd : Side) :
    (b.hashCastling).occupancy sd = b.occupancy sd := by cases sd <;> rfl



theorem switchSideAndHash_whitePawns (b : Board) : (b.switchSideAndHash).whitePawns = b.whitePawns := rfl

theorem switchSideAndHash_whiteKnights (b : Board) : (b.switchSideAndHash).whiteKnights = b.whiteKnights := rfl

theorem switchSideAndHash_whiteBishops (b : Board) : (b.switchSideAndHash).whiteBishops = b.whiteBishops := rfl

theorem switchSideAndHash_whiteRooks (b : Board) : (b.switchSideAndHash).whiteRooks = b.whiteRooks := rfl

theorem switchSideAndHash_whiteQueens (b : Board) : (b.switchSideAndHash).whiteQueens = b.whiteQueens := rfl

theorem switchSideAndHash_whiteKing (b : Board) : (b.switchSideAndHash).whiteKing = b.whiteKing := rfl

theorem switchSideAndHash_blackPawns (b : Board) : (b.switchSideAndHash).blackPawns = b.blackPawns := rfl

theorem switchSideAndHash_blackKnights (b : Board) : (b.switchSideAndHash).blackKnights = b.blackKnights := rfl

theorem switchSideAndHash_blackBishops (b : Board) : (b.switchSideAndHash).blackBishops = b.blackBishops := rfl

theorem switchSideAndHash_blackRooks (b : Board) : (b.switchSideAndHash).blackRooks = b.blackRooks := rfl

theorem switchSideAndHash_blackQueens (b : Board) : (b.switchSideAndHash).blackQueens = b.blackQueens := rfl

theorem switchSideAndHash_blackKing (b : Board) : (b.switchSideAndHash).blackKing = b.blackKing := rfl

theorem switchSideAndHash_pieces (b : Board) : (b.switchSideAndHash).pieces = b.pieces := rfl

theorem switchSideAndHash_whiteOccupancies (b : Board) : (b.switchSideAndHash).whiteOccupancies = b.whiteOccupancies := rfl

theorem switchSideAndHash_blackOccupancies (b : Board) : (b.switchSideAndHash).blackOccupancies = b.blackOccupancies := rfl

theorem switchSideAndHash_halfmoveClock (b : Board) : (b.switchSideAndHash).halfmoveClock = b.halfmoveClock := rfl

theorem switchSideAndHash_castlingRights (b : Board) : (b.switchSideAndHash).castlingRights = b.castlingRights := rfl

theorem switchSideAndHash_enPassantSquare (b : Board) : (b.switchSideAndHash).enPassantSquare = b.enPassantSquare := rfl

theorem switchSideAndHash_history (b : Board) : (b.switchSideAndHash).history = b.history := rfl

theorem switchSideAndHash_side (b : Board) : (b.switchSideAndHash).side = b.side.flip := rfl

theorem switchSideAndHash_getPiece (b : Board) (s : Square) : (b.switchSideAndHash).getPiece s = b.getPiece s := rfl

theorem switchSideAndHash_pieceBbOf (b : Board) (sd : Side) (k : PieceKind) :
    (b.switchSideAndHash).pieceBbOf sd k = b.pieceBbOf sd k := by cases sd <;> cases k <;> rfl

theorem switchSideAndHash_occupancy (b : Board) (sd : Side) :
    (b.switchSideAndHash).occupancy sd = b.occupancy sd := by cases sd <;> rfl



theorem switchSide_whitePawns (b : Board) : (b.switchSide).whitePawns = b.whitePawns := rfl

theorem switchSide_whiteKnights (b : Board) : (b.switchSide).whiteKnights = b.whiteKnights := rfl

theorem switchSide_whiteBishops (b : Board) : (b.switchSide).whiteBishops = b.whiteBishops := rfl

theorem switchSide_whiteRooks (b : Board) : (b.switchSide).whiteRooks = b.whiteRooks := rfl

theorem switchSide_whiteQueens (b : Board) : (b.switchSide).whiteQueens = b.whiteQueens := rfl

theorem switchSide_whiteKing (b : Board) : (b.switchSide).whiteKing = b.whiteKing := rfl

theorem switchSide_blackPawns (b : Board) : (b.switchSide).blackPawns = b.blackPawns := rfl

theorem switchSide_blackKnights (b : Board) : (b.switchSide).blackKnights = b.blackKnights := rfl

theorem switchSide_blackBishops (b : Board) : (b.switchSide).blackBishops = b.blackBishops := rfl

theorem switchSide_blackRooks (b : Board) : (b.switchSide).blackRooks = b.blackRooks := rfl

theorem switchSide_blackQueens (b : Board) : (b.switchSide).blackQueens = b.blackQueens := rfl

theorem switchSide_blackKing (b : Board) : (b.switchSide).blackKing = b.blackKing := rfl

theorem switchSide_pieces (b : Board) : (b.switchSide).pieces = b.pieces := rfl

theorem switchSide_whiteOccupancies (b : Board) : (b.switchSide).whiteOccupancies = b.whiteOccupancies := rfl

theorem switchSide_blackOccupancies (b : Board) : (b.switchSide).blackOccupancies = b.blackOccupancies := rfl

theorem switchSide_halfmoveClock (b : Board) : (b.switchSide).halfmoveClock = b.halfmoveClock := rfl

theorem switchSide_castlingRights (b : Board) : (b.switchSide).castlingRights = b.castlingRights := rfl

theorem switchSide_enPassantSquare (b : Board) : (b.switchSide).enPassantSquare = b.enPassantSquare := rfl

theorem switchSide_history (b : Board) : (b.switchSide).history = b.history := rfl

theorem switchSide_side (b : Board) : (b.switchSide).side = b.side.flip := rfl

theorem switchSide_hash (b : Board) : (b.switchSide).hash = b.hash := rfl

theorem switchSide_getPiece (b : Board) (s : Square) : (b.switchSide).getPiece s = b.getPiece s := rfl

theorem switchSide_pieceBbOf (b : Board) (sd : Side) (k : PieceKind) :
    (b.switchSide).pieceBbOf sd k = b.pieceBbOf sd k := by cases sd <;> cases k <;> rfl

theorem switchSide_occupancy (b : Board) (sd : Side) :
    (b.switchSide).occupancy sd = b.occupancy sd := by cases sd <;> rfl



theorem makeMove_quiet_pawn_spec {b : Board} {mv : Move} {b' : Board}
    (hok : b.makeMove mv = Except.ok b')
    (hq : mv.kind = .quiet)
    (hp : b.getPiece mv.fromSq = ⟨b.side.toColor, .pawn⟩)
    (hd : distanceBetween mv.fromSq mv.toSq = 16) :
    (b'.enPassantSquare =
      if pawnAttacks b.side (epJump b.side mv.fromSq) &&& b.pieceBbOf b.side.flip .pawn ≠ 0
      then epJump b.side mv.fromSq else noneSquare) ∧
    b'.side = b.side.flip ∧
    b'.pieceBbOf b.side.flip .pawn = b.pieceBbOf b.side.flip .pawn := by
  cases hsd : b.side
  case white =>
    rw [hsd] at hp
    simp only [Side.toColor] at hp
    simp only [Board.makeMove] at hok
    obtain ⟨⟨p, B1⟩, hrem, hok⟩ := except_bind_ok hok
    obtain ⟨hp0, hvp, hpieces1, hbb1, hocc1, hside1, hep1, hclk1, hrts1, hhist1, hhash1⟩ :=
      removePieceAndHash_spec hrem
    rw [hp] at hp0
    subst hp0
    rw [hq] at hok
    simp only [] at hok
    obtain ⟨x, hx, hok⟩ := except_bind_ok hok
    obtain ⟨B2, hadd, hpx⟩ := except_bind_ok hx
    simp only [pure, Except.pure, Except.ok.injEq] at hpx
    subst hpx
    simp only [] at hok
    obtain ⟨hvp2, hpieces2, hbb2, hocc2, hside2, hep2, hclk2, hrts2, hhist2, hhash2⟩ :=
      addPieceAndHash_spec hadd
    have hside2' : B2.side = Side.white := by
      rw [hside2, hashEnPassant_side]
      simp only []
      rw [hside1, hsd]
    have hep2' : B2.enPassantSquare = noneSquare := by
      rw [hep2]
    have hbp1 : B1.blackPawns = b.blackPawns := by
      have h1 := hbb1 Side.black PieceKind.pawn (by simp)
      simp only [Side.toColor, Piece.mk.injEq, reduceCtorEq, false_and, if_false,
        reduceIte, Board.pieceBbOf] at h1
      exact h1
    have hbp2 : B2.blackPawns = b.blackPawns := by
      have h1 := hbb2 Side.black PieceKind.pawn (by simp)
      simp only [Side.toColor, Piece.mk.injEq, reduceCtorEq, false_and, if_false,
        reduceIte, hashEnPassant_pieceBbOf, Board.pieceBbOf, hashEnPassant_blackPawns] at h1
      rw [h1]
      exact hbp1
    simp only [hd, hside2', Side.flip, Side.toColor, Board.getPieceBb, hbp2,
      bind_ok_eq, if_true, reduceIte] at hok
    simp only [epJump, Side.flip, Board.pieceBbOf]
    split at hok
    next h =>
      simp only [pure_bind_eq, bind_ok_eq, pure, Except.pure, Except.ok.injEq] at hok
      subst hok
      refine ⟨?_, ?_, ?_⟩
      · rw [if_pos h]
        simp only [switchSideAndHash_enPassantSquare, hashCastling_enPassantSquare,
          hashEnPassant_enPassantSquare]
      · simp only [switchSideAndHash_side, hashCastling_side, hashEnPassant_side,
          hside2', Side.flip]
      · simp only [switchSideAndHash_blackPawns, hashCastling_blackPawns,
          hashEnPassant_blackPawns, hbp2]
    next h =>
      simp only [pure_bind_eq, bind_ok_eq, pure, Except.pure, Except.ok.injEq] at hok
      subst hok
      refine ⟨?_, ?_, ?_⟩
      · rw [if_neg h]
        simp only [switchSideAndHash_enPassantSquare, hashCastling_enPassantSquare,
          hashEnPassant_enPassantSquare, hep2']
      · simp only [switchSideAndHash_side, hashCastling_side, hashEnPassant_side,
          hside2', Side.flip]
      · simp only [switchSideAndHash_blackPawns, hashCastling_blackPawns,
          hashEnPassant_blackPawns, hbp2]
  case black =>
    rw [hsd] at hp
    simp only [Side.toColor] at hp
    simp only [Board.makeMove] at hok
    obtain ⟨⟨p, B1⟩, hrem, hok⟩ := except_bind_ok hok
    obtain ⟨hp0, hvp, hpieces1, hbb1, hocc1, hside1, hep1, hclk1, hrts1, hhist1, hhash1⟩ :=
      removePieceAndHash_spec hrem
    rw [hp] at hp0
    subst hp0
    rw [hq] at hok
    simp only [] at hok
    obtain ⟨x, hx, hok⟩ := except_bind_ok hok
    obtain ⟨B2, hadd, hpx⟩ := except_bind_ok hx
    simp only [pure, Except.pure, Except.ok.injEq] at hpx
    subst hpx
    simp only [] at hok
    obtain ⟨hvp2, hpieces2, hbb2, hocc2, hside2, hep2, hclk2, hrts2, hhist2, hhash2⟩ :=
      addPieceAndHash_spec hadd
    have hside2' : B2.side = Side.black := by
      rw [hside2, hashEnPassant_side]
      simp only []
      rw [hside1, hsd]
    have hep2' : B2.enPassantSquare = noneSquare := by
      rw [hep2]
    have hbp1 : B1.whitePawns = b.whitePawns := by
      have h1 := hbb1 Side.white PieceKind.pawn (by simp)
      simp only [Side.toColor, Piece.mk.injEq, reduceCtorEq, false_and, if_false,
        reduceIte, Board.pieceBbOf] at h1
      exact h1
    have hbp2 : B2.whitePawns = b.whitePawns := by
      have h1 := hbb2 Side.white PieceKind.pawn (by simp)
      simp only [Side.toColor, Piece.mk.injEq, reduceCtorEq, false_and, if_false,
        reduceIte, hashEnPassant_pieceBbOf, Board.pieceBbOf, hashEnPassant_whitePawns] at h1
      rw [h1]
      exact hbp1
    simp only [hd, hside2', Side.flip, Side.toColor, Board.getPieceBb, hbp2,
      bind_ok_eq, if_true, reduceIte] at hok
    simp only [epJump, Side.flip, Board.pieceBbOf]
    split at hok
    next h =>
      simp only [pure_bind_eq, bind_ok_eq, pure, Except.pure, Except.ok.injEq] at hok
      subst hok
      refine ⟨?_, ?_, ?_⟩
      · rw [if_pos h]
        simp only [switchSideAndHash_enPassantSquare, hashCastling_enPassantSquare,
          hashEnPassant_enPassantSquare]
      · simp only [switchSideAndHash_side, hashCastling_side, hashEnPassant_side,
          hside2', Side.flip]
      · simp only [switchSideAndHash_whitePawns, hashCastling_whitePawns,
          hashEnPassant_whitePawns, hbp2]
    next h =>
      simp only [pure_bind_eq, bind_ok_eq, pure, Except.pure, Except.ok.injEq] at hok
      subst hok
      refine ⟨?_, ?_, ?_⟩
      · rw [if_neg h]
        simp only [switchSideAndHash_enPassantSquare, hashCastling_enPassantSquare,
          hashEnPassant_enPassantSquare, hep2']
      · simp only [switchSideAndHash_side, hashCastling_side, hashEnPassant_side,
          hside2', Side.flip]
      · simp only [switchSideAndHash_whitePawns, hashCastling_whitePawns,
          hashEnPassant_whitePawns, hbp2]



theorem makeMove_ep_cleared {b : Board} {mv : Move} {b' : Board}
    (hok : b.makeMove mv = Except.ok b')
    (hnot : ¬((b.getPiece mv.fromSq).kind = PieceKind.pawn ∧
      distanceBetween mv.fromSq mv.toSq = 16)) :
    b'.enPassantSquare = noneSquare := by
  simp only [Board.makeMove] at hok
  obtain ⟨⟨p, B1⟩, hrem, hok⟩ := except_bind_ok hok
  have hp0 : p = b.getPiece mv.fromSq := (removePieceAndHash_spec hrem).1
  have hd2 : p.kind = PieceKind.pawn → ¬distanceBetween mv.fromSq mv.toSq = 16 :=
    fun hpk hd => hnot ⟨by rw [← hp0]; exact hpk, hd⟩
  cases hk : mv.kind
  case quiet =>
    rw [hk] at hok
    simp only [] at hok
    obtain ⟨x, hx, hok⟩ := except_bind_ok hok
    obtain ⟨B2, hadd, hpx⟩ := except_bind_ok hx
    simp only [pure, Except.pure, Except.ok.injEq] at hpx
    subst hpx
    simp only [] at hok
    have hepK : B2.enPassantSquare = noneSquare := by
      rw [(addPieceAndHash_spec hadd).2.2.2.2.2.1]
    by_cases hpk : p.kind = PieceKind.pawn
    · rw [if_pos hpk] at hok
      rw [if_neg (hd2 hpk)] at hok
      simp only [pure_bind_eq, bind_ok_eq, pure, Except.pure, Except.ok.injEq] at hok
      subst hok
      simp only [switchSideAndHash_enPassantSquare, hashCastling_enPassantSquare,
        hashEnPassant_enPassantSquare, hepK]
    · rw [if_neg hpk] at hok
      simp only [pure_bind_eq, bind_ok_eq, pure, Except.pure, Except.ok.injEq] at hok
      subst hok
      simp only [switchSideAndHash_enPassantSquare, hashCastling_enPassantSquare,
        hashEnPassant_enPassantSquare, hepK]
  case capture =>
    rw [hk] at hok
    simp only [] at hok
    obtain ⟨x, hx, hok⟩ := except_bind_ok hok
    split at hx
    · obtain ⟨⟨cap, B2⟩, hrm2, hx⟩ := except_bind_ok hx
      simp only [] at hx
      obtain ⟨B3, hadd3, hx⟩ := except_bind_ok hx
      simp only [pure, Except.pure, Except.ok.injEq] at hx
      subst hx
      simp only [] at hok
      have hepK : B3.enPassantSquare = noneSquare := by
        rw [(addPieceAndHash_spec hadd3).2.2.2.2.2.1,
          (removePieceAndHash_spec hrm2).2.2.2.2.2.2.1]
      by_cases hpk : p.kind = PieceKind.pawn
      · rw [if_pos hpk] at hok
        rw [if_neg (hd2 hpk)] at hok
        simp only [pure_bind_eq, bind_ok_eq, pure, Except.pure, Except.ok.injEq] at hok
        subst hok
        simp only [switchSideAndHash_enPassantSquare, hashCastling_enPassantSquare,
          hashEnPassant_enPassantSquare, hepK]
      · rw [if_neg hpk] at hok
        simp only [pure_bind_eq, bind_ok_eq, pure, Except.pure, Except.ok.injEq] at hok
        subst hok
        simp only [switchSideAndHash_enPassantSquare, hashCastling_enPassantSquare,
          hashEnPassant_enPassantSquare, hepK]
    · obtain ⟨⟨vic, B2⟩, hrm2, hx⟩ := except_bind_ok hx
      simp only [] at hx
      obtain ⟨B3, hadd3, hx⟩ := except_bind_ok hx
      simp only [pure, Except.pure, Except.ok.injEq] at hx
      subst hx
      simp only [] at hok
      have hepK : B3.enPassantSquare = noneSquare := by
        rw [(addPieceAndHash_spec hadd3).2.2.2.2.2.1,
          (removePieceAndHash_spec hrm2).2.2.2.2.2.2.1]
      by_cases hpk : p.kind = PieceKind.pawn
      · rw [if_pos hpk] at hok
        rw [if_neg (hd2 hpk)] at hok
        simp only [pure_bind_eq, bind_ok_eq, pure, Except.pure, Except.ok.injEq] at hok
        subst hok
        simp only [switchSideAndHash_enPassantSquare, hashCastling_enPassantSquare,
          hashEnPassant_enPassantSquare, hepK]
      · rw [if_neg hpk] at hok
        simp only [pure_bind_eq, bind_ok_eq, pure, Except.pure, Except.ok.injEq] at hok
        subst hok
        simp only [switchSideAndHash_enPassantSquare, hashCastling_enPassantSquare,
          hashEnPassant_enPassantSquare, hepK]
  case castle =>
    rw [hk] at hok
    simp only [] at hok
    obtain ⟨x, hx, hok⟩ := except_bind_ok hok
    obtain ⟨B2, hadd2, hx⟩ := except_bind_ok hx
    obtain ⟨⟨rf, rt⟩, hmatch, hx⟩ := except_bind_ok hx
    simp only [] at hx
    obtain ⟨⟨rook, B3⟩, hrm3, hx⟩ := except_bind_ok hx
    simp only [] at hx
    obtain ⟨B4, hadd4, hx⟩ := except_bind_ok hx
    simp only [pure, Except.pure, Except.ok.injEq] at hx
    subst hx
    simp only [] at hok
    have hepK : B4.enPassantSquare = noneSquare := by
      rw [(addPieceAndHash_spec hadd4).2.2.2.2.2.1,
        (removePieceAndHash_spec hrm3).2.2.2.2.2.2.1,
        (addPieceAndHash_spec hadd2).2.2.2.2.2.1]
    by_cases hpk : p.kind = PieceKind.pawn
    · rw [if_pos hpk] at hok
      rw [if_neg (hd2 hpk)] at hok
      simp only [pure_bind_eq, bind_ok_eq, pure, Except.pure, Except.ok.injEq] at hok
      subst hok
      simp only [switchSideAndHash_enPassantSquare, hashCastling_enPassantSquare,
        hashEnPassant_enPassantSquare, hepK]
    · rw [if_neg hpk] at hok
      simp only [pure_bind_eq, bind_ok_eq, pure, Except.pure, Except.ok.injEq] at hok
      subst hok
      simp only [switchSideAndHash_enPassantSquare, hashCastling_enPassantSquare,
        hashEnPassant_enPassantSquare, hepK]
  case promotion =>
    rw [hk] at hok
    simp only [] at hok
    obtain ⟨x, hx, hok⟩ := except_bind_ok hok
    obtain ⟨Bmid, hif, hx⟩ := except_bind_ok hx
    obtain ⟨pp, hflag, hx⟩ := except_bind_ok hx
    obtain ⟨B3, hadd3, hx⟩ := except_bind_ok hx
    simp only [pure, Except.pure, Except.ok.injEq] at hx
    subst hx
    simp only [] at hok
    have hepMid : Bmid.enPassantSquare = noneSquare := by
      split at hif
      · obtain ⟨⟨vic, B2⟩, hrm2, hif⟩ := except_bind_ok hif
        simp only [pure, Except.pure, Except.ok.injEq] at hif
        subst hif
        rw [(removePieceAndHash_spec hrm2).2.2.2.2.2.2.1]
      · simp only [pure, Except.pure, Except.ok.injEq] at hif
        subst hif
        rfl
    have hepK : B3.enPassantSquare = noneSquare := by
      rw [(addPieceAndHash_spec hadd3).2.2.2.2.2.1, hepMid]
    by_cases hpk : p.kind = PieceKind.pawn
    · rw [if_pos hpk] at hok
      rw [if_neg (hd2 hpk)] at hok
      simp only [pure_bind_eq, bind_ok_eq, pure, Except.pure, Except.ok.injEq] at hok
      subst hok
      simp only [switchSideAndHash_enPassantSquare, hashCastling_enPassantSquare,
        hashEnPassant_enPassantSquare, hepK]
    · rw [if_neg hpk] at hok
      simp only [pure_bind_eq, bind_ok_eq, pure, Except.pure, Except.ok.injEq] at hok
      subst hok
      simp only [switchSideAndHash_enPassantSquare, hashCastling_enPassantSquare,
        hashEnPassant_enPassantSquare, hepK]


theorem pawnAttacks_not_dist16 :
    ∀ (sd : Side) (f t : Fin 64), (pawnAttacks sd f.val).testBit t.val = true →
      distanceBetween f.val t.val ≠ 16 := by decide

theorem knightAttacks_not_dist16 :
    ∀ (f t : Fin 64), (knightAttacks f.val).testBit t.val = true →
      distanceBetween f.val t.val ≠ 16 := by decide

theorem kingAttacks_not_dist16 :
    ∀ (f t : Fin 64), (kingAttacks f.val).testBit t.val = true →
      distanceBetween f.val t.val ≠ 16 := by decide

theorem rank4_range : ∀ t : Fin 64, Nat.testBit RANK_4_MASK t.val = true →
    24 ≤ t.val ∧ t.val < 32 := by decide

theorem rank5_range : ∀ t : Fin 64, Nat.testBit RANK_5_MASK t.val = true →
    32 ≤ t.val ∧ t.val < 40 := by decide



theorem testBit_shl64 (x n t : Nat) :
    (shl64 x n).testBit t = (decide (t < 64) && (decide (n ≤ t) && x.testBit (t - n))) := by
  rw [shl64, Nat.testBit_mod_two_pow, Nat.testBit_shiftLeft]

theorem and_testBit_left {x y t : Nat} (h : (x &&& y).testBit t = true) :
    x.testBit t = true := by
  rw [Nat.testBit_and] at h
  exact (Bool.and_eq_true_iff.mp h).1

theorem and_testBit_right {x y t : Nat} (h : (x &&& y).testBit t = true) :
    y.testBit t = true := by
  rw [Nat.testBit_and] at h
  exact (Bool.and_eq_true_iff.mp h).2

theorem shl64_testBit_elim {x n t : Nat} (h : (shl64 x n).testBit t = true) :
    t < 64 ∧ n ≤ t ∧ x.testBit (t - n) = true := by
  rw [testBit_shl64] at h
  simp only [Bool.and_eq_true_iff, decide_eq_true_eq] at h
  exact ⟨h.1, h.2.1, h.2.2⟩

theorem squareBB_testBit_elim {f t : Nat} (h : (squareBB f).testBit t = true) : t = f := by
  rw [testBit_squareBB] at h
  exact of_decide_eq_true h


theorem sq_arith_push_white {f t : Nat} (hfe : t - 8 = f) (h8 : 8 ≤ t)
    (hd : max f t - min f t = 16) : False := by omega

theorem sq_arith_push_black {f t : Nat} (hfe : 8 + t = f)
    (hd : max f t - min f t = 16) : False := by omega

theorem sq_arith_dp_white {f t : Nat} (hfe : t - 8 - 8 = f) (h8 : 8 ≤ t) (h8b : 8 ≤ t - 8) :
    t = f + 16 := by omega

theorem sq_arith_dp_black {f t : Nat} (hfe : 8 + (8 + t) = f) : f = t + 16 := by omega

theorem pawnMoves_dist16 {b : Board} {m : Move} (hm : m ∈ generatePawnMoves b)
    (hd : distanceBetween m.fromSq m.toSq = 16) :
    m.kind = MoveKind.quiet ∧ m.flag = MoveFlag.noFlag ∧ m.fromSq < 64 ∧ m.toSq < 64 ∧
    (b.pieceBbOf b.side .pawn).testBit m.fromSq = true ∧
    (b.side = .white → m.toSq = m.fromSq + 16 ∧ Nat.testBit RANK_4_MASK m.toSq = true) ∧
    (b.side = .black → m.fromSq = m.toSq + 16 ∧ Nat.testBit RANK_5_MASK m.toSq = true) := by
  simp only [generatePawnMoves, List.mem_flatMap] at hm
  obtain ⟨f, hf, hm⟩ := hm
  have hf64 : f < 64 := (mem_bits64.mp hf).1
  have hfbit := (mem_bits64.mp hf).2
  rcases List.mem_append.mp hm with hm' | hmatt
  · rcases List.mem_append.mp hm' with hmp | hmd
    · -- single pushes: distance 8, contradiction
      exfalso
      rw [List.mem_flatMap] at hmp
      obtain ⟨t, ht, hmt⟩ := hmp
      obtain ⟨ht64, htbit⟩ := mem_bits64.mp (List.take_subset _ _ ht)
      have hft : m.fromSq = f ∧ m.toSq = t := by
        revert hmt
        split
        · intro hmt
          have := mem_allPromotions hmt hf64 ht64
          exact ⟨this.2.1, this.2.2.1⟩
        · intro hmt
          simp only [List.mem_singleton] at hmt
          subst hmt
          exact ⟨Move.fromSq_make _ _ hf64 ht64, Move.toSq_make _ _ hf64 ht64⟩
      rw [hft.1, hft.2] at hd
      have hpush := and_testBit_left htbit
      simp only [distanceBetween] at hd
      cases hsd : b.side
      · rw [hsd] at hpush
        simp only [pawnPushes, whitePawnPushes] at hpush
        obtain ⟨-, h8, hfe⟩ := shl64_testBit_elim hpush
        exact sq_arith_push_white (squareBB_testBit_elim hfe) h8 hd
      · rw [hsd] at hpush
        simp only [pawnPushes, blackPawnPushes, Nat.testBit_shiftRight] at hpush
        exact sq_arith_push_black (squareBB_testBit_elim hpush) hd
    · -- double pushes
      rw [List.mem_map] at hmd
      obtain ⟨t, ht, hmt⟩ := hmd
      obtain ⟨ht64, htbit⟩ := mem_bits64.mp (List.take_subset _ _ ht)
      subst hmt
      refine ⟨Move.kind_make _ _ hf64 ht64, Move.flag_make _ _ hf64 ht64,
        by rw [Move.fromSq_make _ _ hf64 ht64]; exact hf64,
        by rw [Move.toSq_make _ _ hf64 ht64]; exact ht64,
        by rw [Move.fromSq_make _ _ hf64 ht64]; exact hfbit, ?_, ?_⟩
      · intro hsd
        rw [hsd] at htbit
        rw [Move.fromSq_make _ _ hf64 ht64, Move.toSq_make _ _ hf64 ht64]
        simp only [pawnPushes, whitePawnPushes] at htbit
        have hr4 := and_testBit_right (and_testBit_left htbit)
        obtain ⟨-, h8, hsp⟩ := shl64_testBit_elim (and_testBit_left (and_testBit_left htbit))
        obtain ⟨-, h8b, hfe⟩ := shl64_testBit_elim (and_testBit_left hsp)
        exact ⟨sq_arith_dp_white (squareBB_testBit_elim hfe) h8 h8b, hr4⟩
      · intro hsd
        rw [hsd] at htbit
        rw [Move.fromSq_make _ _ hf64 ht64, Move.toSq_make _ _ hf64 ht64]
        simp only [pawnPushes, blackPawnPushes, Nat.testBit_shiftRight] at htbit
        have hr5 := and_testBit_right (and_testBit_left htbit)
        have hsp := and_testBit_left (and_testBit_left htbit)
        rw [Nat.testBit_shiftRight] at hsp
        have hfe := and_testBit_left hsp
        rw [Nat.testBit_shiftRight] at hfe
        exact ⟨sq_arith_dp_black (squareBB_testBit_elim hfe), hr5⟩
  · -- attacks: never distance 16
    exfalso
    rw [List.mem_flatMap] at hmatt
    obtain ⟨t, ht, hmt⟩ := hmatt
    obtain ⟨ht64, htbit⟩ := mem_bits64.mp ht
    have hft : m.fromSq = f ∧ m.toSq = t := by
      revert hmt
      split
      · intro hmt
        have := mem_allPromotions hmt hf64 ht64
        exact ⟨this.2.1, this.2.2.1⟩
      · intro hmt
        simp only [List.mem_singleton] at hmt
        subst hmt
        exact ⟨Move.fromSq_make _ _ hf64 ht64, Move.toSq_make _ _ hf64 ht64⟩
    rw [hft.1, hft.2] at hd
    exact pawnAttacks_not_dist16 b.side ⟨f, hf64⟩ ⟨t, ht64⟩ (and_testBit_left htbit) hd

theorem castle_not_dist16 {att : Board → Square → Side → Bool} {b : Board} {m : Move}
    (hm : m ∈ generateCastlingMoves att b) : distanceBetween m.fromSq m.toSq ≠ 16 := by
  unfold generateCastlingMoves at hm
  cases hsd : b.side <;> simp only [hsd] at hm <;>
    (rcases List.mem_append.mp hm with h | h <;> rw [mem_ite_singleton] at h <;>
      rw [h.2] <;> decide)

theorem mem_targets_spec {f : Square} {own enemy atts : Bitboard} {m : Move} (hf : f < 64)
    (h : m ∈ (bits64 (atts &&& not64 own)).map (fun toSq =>
      Move.make f toSq (if squareBB toSq &&& enemy ≠ 0 then .capture else .quiet) .noFlag)) :
    ∃ t, t < 64 ∧ (atts &&& not64 own).testBit t = true ∧ m.fromSq = f ∧ m.toSq = t ∧
      m.kind = (if squareBB t &&& enemy ≠ 0 then MoveKind.capture else .quiet) ∧
      m.flag = MoveFlag.noFlag := by
  rw [List.mem_map] at h
  obtain ⟨t, ht, hmt⟩ := h
  obtain ⟨ht64, htbit⟩ := mem_bits64.mp ht
  subst hmt
  exact ⟨t, ht64, htbit, Move.fromSq_make _ _ hf ht64, Move.toSq_make _ _ hf ht64,
    Move.kind_make _ _ hf ht64, Move.flag_make _ _ hf ht64⟩


theorem gen_dist16_is_double_push {rA bA : AttackFn} {b : Board} {m : Move}
    (hc : BoardConsistent b) (hm : m ∈ generateAllMoves rA bA b)
    (hpk : (b.getPiece m.fromSq).kind = PieceKind.pawn)
    (hd : distanceBetween m.fromSq m.toSq = 16) :
    m.kind = MoveKind.quiet ∧ m.fromSq < 64 ∧ m.toSq < 64 ∧
    b.getPiece m.fromSq = ⟨b.side.toColor, .pawn⟩ ∧
    (b.side = .white → m.toSq = m.fromSq + 16 ∧ Nat.testBit RANK_4_MASK m.toSq = true) ∧
    (b.side = .black → m.fromSq = m.toSq + 16 ∧ Nat.testBit RANK_5_MASK m.toSq = true) := by
  simp only [generateAllMoves, List.mem_append] at hm
  rcases hm with ((((((hm | hm) | hm) | hm) | hm) | hm) | hm)
  · obtain ⟨hq, -, hf64, ht64, hfbit, hw, hb⟩ := pawnMoves_dist16 hm hd
    exact ⟨hq, hf64, ht64,
      getPiece_of_bbOf hc hf64 (by simp) hfbit, hw, hb⟩
  · exfalso
    simp only [generateKingMoves, List.mem_flatMap] at hm
    obtain ⟨f, hf, hm⟩ := hm
    have hf64 : f < 64 := (mem_bits64.mp (List.take_subset _ _ hf)).1
    obtain ⟨t, ht64, htbit, hfrom, hto, -, -⟩ := mem_targets_spec hf64 hm
    rw [hfrom, hto] at hd
    exact kingAttacks_not_dist16 ⟨f, hf64⟩ ⟨t, ht64⟩ (and_testBit_left htbit) hd
  · exact absurd hd (castle_not_dist16 hm)
  · exfalso
    simp only [generateKnightMoves, List.mem_flatMap] at hm
    obtain ⟨f, hf, hm⟩ := hm
    obtain ⟨hf64, hfbit⟩ := mem_bits64.mp hf
    obtain ⟨t, ht64, htbit, hfrom, hto, -, -⟩ := mem_targets_spec hf64 hm
    rw [hfrom] at hpk
    rw [getPiece_of_bbOf hc hf64 (by simp) hfbit] at hpk
    simp at hpk
  · exfalso
    simp only [generateBishopMoves, List.mem_flatMap] at hm
    obtain ⟨f, hf, hm⟩ := hm
    obtain ⟨hf64, hfbit⟩ := mem_bits64.mp hf
    obtain ⟨t, ht64, htbit, hfrom, hto, -, -⟩ := mem_targets_spec hf64 hm
    rw [hfrom] at hpk
    rw [getPiece_of_bbOf hc hf64 (by simp) hfbit] at hpk
    simp at hpk
  · exfalso
    simp only [generateRookMoves, List.mem_flatMap] at hm
    obtain ⟨f, hf, hm⟩ := hm
    obtain ⟨hf64, hfbit⟩ := mem_bits64.mp hf
    obtain ⟨t, ht64, htbit, hfrom, hto, -, -⟩ := mem_targets_spec hf64 hm
    rw [hfrom] at hpk
    rw [getPiece_of_bbOf hc hf64 (by simp) hfbit] at hpk
    simp at hpk
  · exfalso
    simp only [generateQueenMoves, List.mem_flatMap] at hm
    obtain ⟨f, hf, hm⟩ := hm
    obtain ⟨hf64, hfbit⟩ := mem_bits64.mp hf
    obtain ⟨t, ht64, htbit, hfrom, hto, -, -⟩ := mem_targets_spec hf64 hm
    rw [hfrom] at hpk
    rw [getPiece_of_bbOf hc hf64 (by simp) hfbit] at hpk
    simp at hpk

theorem sq_arith_ep_white {f t : Nat} (h : t = f + 16) (h24 : 24 ≤ t) (h32 : t < 32) :
    f + 8 < 64 ∧ (f + 8) / 8 = 2 := by omega

theorem sq_arith_ep_black {f t : Nat} (h : f = t + 16) (h32 : 32 ≤ t) (h40 : t < 40) :
    f - 8 < 64 ∧ (f - 8) / 8 = 5 := by omega


/-- C6: after a successful `make_move`, (i) for a quiet own-pawn move of
two ranks (a double push) the new en-passant square is the jumped-over
square when at least one enemy pawn attacks it and `None` otherwise;
(ii) for every other move the en-passant square is `None`; and (iii) for
every move produced by `generate_all_moves` on a consistent board, the
resulting board's en-passant square is `None` or a square on rank 3
(White just pushed, Black to move) or rank 6 (mirrored) that an enemy
pawn attacks. -/
theorem c6_en_passant (b : Board) (mv : Move) (b' : Board)
    (hok : b.makeMove mv = Except.ok b') :
    (mv.kind = MoveKind.quiet → b.getPiece mv.fromSq = ⟨b.side.toColor, .pawn⟩ →
      distanceBetween mv.fromSq mv.toSq = 16 →
      b'.enPassantSquare =
        if pawnAttacks b.side (epJump b.side mv.fromSq) &&& b.pieceBbOf b.side.flip .pawn ≠ 0
        then epJump b.side mv.fromSq else noneSquare) ∧
    (¬((b.getPiece mv.fromSq).kind = PieceKind.pawn ∧
        distanceBetween mv.fromSq mv.toSq = 16) →
      b'.enPassantSquare = noneSquare) ∧
    (∀ rA bA : AttackFn, BoardConsistent b → mv ∈ generateAllMoves rA bA b →
      b'.enPassantSquare = noneSquare ∨
        (b'.enPassantSquare < 64 ∧
         (b'.side = Side.black → b'.enPassantSquare / 8 = 2) ∧
         (b'.side = Side.white → b'.enPassantSquare / 8 = 5) ∧
         pawnAttacks b'.side.flip b'.enPassantSquare &&& b'.pieceBbOf b'.side .pawn ≠ 0)) := by
  refine ⟨fun hq hp hd => (makeMove_quiet_pawn_spec hok hq hp hd).1,
    makeMove_ep_cleared hok, ?_⟩
  intro rA bA hc hm
  by_cases hdp : (b.getPiece mv.fromSq).kind = PieceKind.pawn ∧
      distanceBetween mv.fromSq mv.toSq = 16
  · obtain ⟨hq, hf64, ht64, hp, hw, hb⟩ := gen_dist16_is_double_push hc hm hdp.1 hdp.2
    obtain ⟨hepEq, hside', hbb'⟩ := makeMove_quiet_pawn_spec hok hq hp hdp.2
    by_cases hatt :
        pawnAttacks b.side (epJump b.side mv.fromSq) &&& b.pieceBbOf b.side.flip .pawn ≠ 0
    · right
      rw [if_pos hatt] at hepEq
      cases hsd : b.side
      · obtain ⟨hto16, hr4⟩ := hw hsd
        obtain ⟨hlt, hdiv⟩ := sq_arith_ep_white hto16 (rank4_range ⟨mv.toSq, ht64⟩ hr4).1
          (rank4_range ⟨mv.toSq, ht64⟩ hr4).2
        have hepval : b'.enPassantSquare = mv.fromSq + 8 := by
          rw [hepEq, hsd]
          simp [epJump, Square.north]
        have hside'' : b'.side = Side.black := by
          rw [hside', hsd]
          simp [Side.flip]
        refine ⟨by rw [hepval]; exact hlt, fun _ => by rw [hepval]; exact hdiv,
          fun habs => absurd (hside''.symm.trans habs) (by simp), ?_⟩
        rw [hside'']
        simp only [Side.flip]
        rw [hepval]
        have : pawnAttacks Side.white (mv.fromSq + 8) &&&
            b'.pieceBbOf Side.black PieceKind.pawn ≠ 0 := by
          have hbb'' : b'.pieceBbOf Side.black PieceKind.pawn =
              b.pieceBbOf Side.black PieceKind.pawn := by
            have := hbb'
            rw [hsd] at this
            simpa [Side.flip] using this
          rw [hbb'']
          have := hatt
          rw [hsd] at this
          simpa [epJump, Square.north, Side.flip] using this
        exact this
      · obtain ⟨hto16, hr5⟩ := hb hsd
        obtain ⟨hlt, hdiv⟩ := sq_arith_ep_black hto16 (rank5_range ⟨mv.toSq, ht64⟩ hr5).1
          (rank5_range ⟨mv.toSq, ht64⟩ hr5).2
        have hepval : b'.enPassantSquare = mv.fromSq - 8 := by
          rw [hepEq, hsd]
          simp [epJump, Square.south]
        have hside'' : b'.side = Side.white := by
          rw [hside', hsd]
          simp [Side.flip]
        refine ⟨by rw [hepval]; exact hlt,
          fun habs => absurd (hside''.symm.trans habs) (by simp),
          fun _ => by rw [hepval]; exact hdiv, ?_⟩
        rw [hside'']
        simp only [Side.flip]
        rw [hepval]
        have : pawnAttacks Side.black (mv.fromSq - 8) &&&
            b'.pieceBbOf Side.white PieceKind.pawn ≠ 0 := by
          have hbb'' : b'.pieceBbOf Side.white PieceKind.pawn =
              b.pieceBbOf Side.white PieceKind.pawn := by
            have := hbb'
            rw [hsd] at this
            simpa [Side.flip] using this
          rw [hbb'']
          have := hatt
          rw [hsd] at this
          simpa [epJump, Square.south, Side.flip] using this
        exact this
    · left
      rw [if_neg hatt] at hepEq
      exact hepEq
  · left
    exact makeMove_ep_cleared hok hdp


theorem c6_witness :
    dpBoard.makeMove dpMove = Except.ok dpAfter ∧
    dpAfter.enPassantSquare =
      (if pawnAttacks dpBoard.side (epJump dpBoard.side dpMove.fromSq) &&&
          dpBoard.pieceBbOf dpBoard.side.flip .pawn ≠ 0
       then epJump dpBoard.side dpMove.fromSq else noneSquare) ∧
    (dpAfter.enPassantSquare = noneSquare ∨
      (dpAfter.enPassantSquare < 64 ∧
       (dpAfter.side = Side.black → dpAfter.enPassantSquare / 8 = 2) ∧
       (dpAfter.side = Side.white → dpAfter.enPassantSquare / 8 = 5) ∧
       pawnAttacks dpAfter.side.flip dpAfter.enPassantSquare &&&
         dpAfter.pieceBbOf dpAfter.side .pawn ≠ 0)) := by
  have hok : dpBoard.makeMove dpMove = Except.ok dpAfter := by rfl
  refine ⟨hok, ?_, ?_⟩
  · exact (c6_en_passant dpBoard dpMove dpAfter hok).1 (by decide) (by decide) (by decide)
  · exact (c6_en_passant dpBoard dpMove dpAfter hok).2.2 rookAttackRay bishopAttackRay
      (by decide) (by decide)

/-!  C4: `parse_fen` error behaviour across the malformed-FEN classes. -/

theorem parseRankChars_scalars (rankIdx : Nat) (cs : List Char) :
    ∀ (b : Board) (fileIdx : Nat),
      (resBoard (parseRankChars b rankIdx fileIdx cs)).halfmoveClock = b.halfmoveClock ∧
      (resBoard (parseRankChars b rankIdx fileIdx cs)).history = b.history ∧
      (resBoard (parseRankChars b rankIdx fileIdx cs)).hash = b.hash := by
  induction cs with
  | nil => intro b fileIdx; exact ⟨rfl, rfl, rfl⟩
  | cons c rest ih =>
    intro b fileIdx
    cases hp : pieceOfChar c with
    | some p =>
      simp only [parseRankChars, hp]
      by_cases hf : fileIdx > 7
      · rw [if_pos hf]; exact ⟨rfl, rfl, rfl⟩
      · rw [if_neg hf]
        cases ha : b.addPiece p (rankIdx * 8 + fileIdx) with
        | ok b1 =>
          obtain ⟨-, -, -, -, -, -, hclk, -, hhist, hhash⟩ := addPiece_spec ha
          obtain ⟨h1, h2, h3⟩ := ih b1 (fileIdx + 1)
          exact ⟨h1.trans hclk, h2.trans hhist, h3.trans hhash⟩
        | error e => exact ⟨rfl, rfl, rfl⟩
    | none =>
      simp only [parseRankChars, hp]
      by_cases hd : '1' ≤ c ∧ c ≤ '8'
      · rw [if_pos hd]; exact ih b (fileIdx + (c.toNat - 48))
      · rw [if_neg hd]; exact ⟨rfl, rfl, rfl⟩

theorem parseRanks_scalars (l : List (Nat × List Char)) :
    ∀ b : Board,
      (resBoard (parseRanks b l)).halfmoveClock = b.halfmoveClock ∧
      (resBoard (parseRanks b l)).history = b.history ∧
      (resBoard (parseRanks b l)).hash = b.hash := by
  induction l with
  | nil => intro b; exact ⟨rfl, rfl, rfl⟩
  | cons pr rest ih =>
    intro b
    obtain ⟨idx, line⟩ := pr
    have hs := parseRankChars_scalars idx line b 0
    simp only [parseRanks]
    cases hr : parseRankChars b idx 0 line with
    | ok b1 =>
      rw [hr] at hs
      obtain ⟨h1, h2, h3⟩ := ih b1
      exact ⟨h1.trans hs.1, h2.trans hs.2.1, h3.trans hs.2.2⟩
    | error e =>
      obtain ⟨msg, b1⟩ := e
      rw [hr] at hs
      exact hs

theorem parseCastlingChars_scalars (cs : List Char) :
    ∀ b : Board,
      (resBoard (parseCastlingChars b cs)).halfmoveClock = b.halfmoveClock ∧
      (resBoard (parseCastlingChars b cs)).history = b.history ∧
      (resBoard (parseCastlingChars b cs)).hash = b.hash := by
  induction cs with
  | nil => intro b; exact ⟨rfl, rfl, rfl⟩
  | cons c rest ih =>
    intro b
    simp only [parseCastlingChars]
    by_cases hc : c = '-'
    · rw [if_pos hc]; exact ih b
    · rw [if_neg hc]
      cases hk : castlingKindOfChar c with
      | some k => exact ih { b with castlingRights := b.castlingRights ||| k }
      | none => exact ⟨rfl, rfl, rfl⟩

theorem parseRankChars_bad (rankIdx : Nat) (cs : List Char) :
    ∀ (b : Board) (fileIdx : Nat),
      (∃ c ∈ cs, pieceOfChar c = Option.none ∧ ¬('1' ≤ c ∧ c ≤ '8')) →
      ∃ e, parseRankChars b rankIdx fileIdx cs = .error e := by
  induction cs with
  | nil => intro b fileIdx h; simp at h
  | cons c rest ih =>
    intro b fileIdx h
    cases hp : pieceOfChar c with
    | some p =>
      have hrest : ∃ d ∈ rest, pieceOfChar d = Option.none ∧ ¬('1' ≤ d ∧ d ≤ '8') := by
        rcases h with ⟨d, hdm, hbad⟩
        rcases List.mem_cons.mp hdm with rfl | hdm2
        · rw [hp] at hbad
          exact absurd hbad.1 (by simp)
        · exact ⟨d, hdm2, hbad⟩
      simp only [parseRankChars, hp]
      by_cases hf : fileIdx > 7
      · rw [if_pos hf]; exact ⟨_, rfl⟩
      · rw [if_neg hf]
        cases ha : b.addPiece p (rankIdx * 8 + fileIdx) with
        | ok b1 => exact ih b1 (fileIdx + 1) hrest
        | error e => exact ⟨_, rfl⟩
    | none =>
      simp only [parseRankChars, hp]
      by_cases hd : '1' ≤ c ∧ c ≤ '8'
      · have hrest : ∃ d ∈ rest, pieceOfChar d = Option.none ∧ ¬('1' ≤ d ∧ d ≤ '8') := by
          rcases h with ⟨d, hdm, hbad⟩
          rcases List.mem_cons.mp hdm with rfl | hdm2
          · exact absurd hd hbad.2
          · exact ⟨d, hdm2, hbad⟩
        rw [if_pos hd]
        exact ih b (fileIdx + (c.toNat - 48)) hrest
      · rw [if_neg hd]
        exact ⟨_, rfl⟩

theorem parseRanks_bad (l : List (List Char)) :
    ∀ (n : Nat) (b : Board),
      (∃ line ∈ l, ∃ c ∈ line, pieceOfChar c = Option.none ∧ ¬('1' ≤ c ∧ c ≤ '8')) →
      ∃ e, parseRanks b (l.enumFrom n) = .error e := by
  induction l with
  | nil => intro n b h; simp at h
  | cons line rest ih =>
    intro n b h
    simp only [List.enumFrom]
    by_cases hl : ∃ c ∈ line, pieceOfChar c = Option.none ∧ ¬('1' ≤ c ∧ c ≤ '8')
    · obtain ⟨e, he⟩ := parseRankChars_bad n line b 0 hl
      exact ⟨e, by simp only [parseRanks, he]⟩
    · have hrest : ∃ l2 ∈ rest, ∃ c ∈ l2, pieceOfChar c = Option.none ∧ ¬('1' ≤ c ∧ c ≤ '8') := by
        rcases h with ⟨l2, hl2, hc⟩
        rcases List.mem_cons.mp hl2 with rfl | hl3
        · exact absurd hc hl
        · exact ⟨l2, hl3, hc⟩
      simp only [parseRanks]
      cases hr : parseRankChars b n 0 line with
      | ok b1 => exact ih (n + 1) b1 hrest
      | error e => exact ⟨e, rfl⟩

theorem parseCastlingChars_bad (cs : List Char) :
    ∀ b : Board,
      (∃ c ∈ cs, c ≠ '-' ∧ castlingKindOfChar c = Option.none) →
      ∃ e, parseCastlingChars b cs = .error e := by
  induction cs with
  | nil => intro b h; simp at h
  | cons c rest ih =>
    intro b h
    simp only [parseCastlingChars]
    by_cases hc : c = '-'
    · have hrest : ∃ d ∈ rest, d ≠ '-' ∧ castlingKindOfChar d = Option.none := by
        rcases h with ⟨d, hdm, hbad⟩
        rcases List.mem_cons.mp hdm with rfl | hdm2
        · exact absurd hc hbad.1
        · exact ⟨d, hdm2, hbad⟩
      rw [if_pos hc]
      exact ih b hrest
    · rw [if_neg hc]
      cases hk : castlingKindOfChar c with
      | some k =>
        have hrest : ∃ d ∈ rest, d ≠ '-' ∧ castlingKindOfChar d = Option.none := by
          rcases h with ⟨d, hdm, hbad⟩
          rcases List.mem_cons.mp hdm with rfl | hdm2
          · rw [hk] at hbad
            exact absurd hbad.2 (by simp)
          · exact ⟨d, hdm2, hbad⟩
        exact ih { b with castlingRights := b.castlingRights ||| k } hrest
      | none => exact ⟨_, rfl⟩

theorem parseFen_malformed_spec (b : Board) (fen : String) (h : fenMalformed fen) :
    ∃ msg b1, parseFen b fen = (b1, some msg) ∧
      b1.history = [] ∧ b1.halfmoveClock = 0 ∧ b1.hash = b.hash := by
  simp only [parseFen]
  by_cases h6 : (charSplit ' ' fen.toList).length ≠ 6
  · rw [if_pos h6]
    exact ⟨_, _, rfl, rfl, rfl, rfl⟩
  rw [if_neg h6]
  by_cases h8 : ((charSplit '/' ((charSplit ' ' fen.toList).getD 0 [])).reverse).length ≠ 8
  · rw [if_pos h8]
    exact ⟨_, _, rfl, rfl, rfl, rfl⟩
  rw [if_neg h8]
  have hs0 := parseRanks_scalars (((charSplit '/' ((charSplit ' ' fen.toList).getD 0 [])).reverse).enum) b.reset
  cases hpr : parseRanks b.reset (((charSplit '/' ((charSplit ' ' fen.toList).getD 0 [])).reverse).enum) with
  | error e =>
    obtain ⟨msg, b1⟩ := e
    rw [hpr] at hs0
    exact ⟨msg, b1, rfl, hs0.2.1, hs0.1, hs0.2.2⟩
  | ok b1 =>
    rw [hpr] at hs0
    simp only []
    by_cases hside : ((charSplit ' ' fen.toList).getD 1 []).head? = some 'w' ∨
        ((charSplit ' ' fen.toList).getD 1 []).head? = some 'b'
    case neg =>
      rw [if_neg hside]
      exact ⟨_, b1, rfl, hs0.2.1, hs0.1, hs0.2.2⟩
    rw [if_pos hside]
    have hs1 := parseCastlingChars_scalars ((charSplit ' ' fen.toList).getD 2 [])
      { b1 with side := if ((charSplit ' ' fen.toList).getD 1 []).head? = some 'w'
          then Side.white else Side.black }
    cases hcc : parseCastlingChars
        { b1 with side := if ((charSplit ' ' fen.toList).getD 1 []).head? = some 'w'
            then Side.white else Side.black }
        ((charSplit ' ' fen.toList).getD 2 []) with
    | error e =>
      obtain ⟨msg, b2⟩ := e
      rw [hcc] at hs1
      exact ⟨msg, b2, rfl, hs1.2.1.trans hs0.2.1, hs1.1.trans hs0.1, hs1.2.2.trans hs0.2.2⟩
    | ok b2 =>
      rw [hcc] at hs1
      cases hdg : digitsToNat? ((charSplit ' ' fen.toList).getD 4 []) with
      | none =>
        exact ⟨_, _, rfl, hs1.2.1.trans hs0.2.1, hs1.1.trans hs0.1, hs1.2.2.trans hs0.2.2⟩
      | some n =>
        exfalso
        rcases h with h1 | h2 | h3 | h4 | h5 | h9
        · exact h6 h1
        · exact h8 (by rw [List.length_reverse]; exact h2)
        · obtain ⟨e, he⟩ := parseRanks_bad
            ((charSplit '/' ((charSplit ' ' fen.toList).getD 0 [])).reverse) 0 b.reset
            (by rcases h3 with ⟨line, hm, hc⟩; exact ⟨line, List.mem_reverse.mpr hm, hc⟩)
          have he2 : Except.ok b1 = Except.error e := by rw [← hpr]; exact he
          exact Except.noConfusion he2
        · rcases hside with hw | hb
          · exact h4.1 hw
          · exact h4.2 hb
        · obtain ⟨e, he⟩ := parseCastlingChars_bad ((charSplit ' ' fen.toList).getD 2 [])
            { b1 with side := if ((charSplit ' ' fen.toList).getD 1 []).head? = some 'w'
                then Side.white else Side.black } h5
          rw [hcc] at he
          exact Except.noConfusion he
        · rw [h9] at hdg
          exact Option.noConfusion hdg

/-- C4 (amended): for every FEN malformed in one of the error classes —
wrong space-separated field count, wrong rank count, a bad
piece-placement character, a side letter other than `w`/`b`, a bad
castling character, or a halfmove-clock field that `usize` parsing
rejects — `parse_fen` returns an error; but the board is *not* left
unchanged: `reset` runs at entry, so the caller's prior position is lost
and the board is left in the reset and possibly partially repopulated
state (empty history, zero halfmove clock, and the stale pre-call hash,
which is recomputed only on success), identical to what parsing into an
already-reset board would leave; a wrong field count in particular
leaves exactly the reset board. -/
theorem c4_parse_fen_errors (b : Board) (fen : String) (h : fenMalformed fen) :
    (parseFen b fen).2.isSome = true ∧
    (parseFen b fen).1.history = [] ∧
    (parseFen b fen).1.halfmoveClock = 0 ∧
    (parseFen b fen).1.hash = b.hash ∧
    parseFen b fen = parseFen b.reset fen ∧
    ((charSplit ' ' fen.toList).length ≠ 6 → (parseFen b fen).1 = b.reset) := by
  obtain ⟨msg, b1, heq, hh, hc, hz⟩ := parseFen_malformed_spec b fen h
  refine ⟨by rw [heq]; rfl, by rw [heq]; exact hh, by rw [heq]; exact hc, by rw [heq]; exact hz,
    ?_, ?_⟩
  · have hrr : b.reset.reset = b.reset := rfl
    simp only [parseFen]
    rw [hrr]
  · intro h6
    simp only [parseFen]
    rw [if_pos h6]

theorem c4_witness :
    fenMalformed "junk" ∧
    ((parseFen startBoard "junk").2.isSome = true ∧
     (parseFen startBoard "junk").1.history = [] ∧
     (parseFen startBoard "junk").1.halfmoveClock = 0 ∧
     (parseFen startBoard "junk").1.hash = startBoard.hash ∧
     parseFen startBoard "junk" = parseFen startBoard.reset "junk" ∧
     ((charSplit ' ' "junk".toList).length ≠ 6 →
       (parseFen startBoard "junk").1 = startBoard.reset)) :=
  ⟨by decide, c4_parse_fen_errors startBoard "junk" (by decide)⟩

end Krusty
